import Mathlib

/- Verification of the chat-transcript analysis system: a shallow embedding of
   the topic-extraction engine (api_use.py), the search engine (Searcher.py),
   the topic-relationship graph (graphs.py and graph.py) and the dashboard's
   group-deletion action (frontmanager.py), with theorems settling the frozen
   behavioural claims about interval validation and repair, keyword and AI
   search, JSON response extraction, graph construction and id assignment. -/

/- ### Python-style string primitives -/

/-- Python's `needle in hay` substring test, on the underlying character
lists. -/
def pyIn (needle hay : String) : Bool := decide (needle.data <:+: hay.data)

/-- Python's `str.lower()` (modelled characterwise). -/
def pyLower (s : String) : String := String.mk (s.data.map Char.toLower)

/- ### Python's stable sort (`list.sort(key=..., reverse=True)`)

Python's sort is stable; with `reverse=True` it orders keys descending while
equal-key elements keep their original relative order.  `insertDesc` places an
element before the first strictly-smaller key, i.e. after all earlier elements
with an equal or larger key is wrong for stability -- the element being
inserted is the EARLIER one in `pySortDesc`'s right-fold, so it goes before
equal keys. -/

/-- Insert `x` into a descending-sorted list, before the first element whose
key is less than or equal to `key x` (so that, in `pySortDesc`, earlier
elements of the original list precede later equal-key elements). -/
def insertDesc {α β : Type} [LinearOrder β] (key : α → β) (x : α) : List α → List α
  | [] => [x]
  | y :: ys => if key y ≤ key x then x :: y :: ys else y :: insertDesc key x ys

/-- Python's `list.sort(key=key, reverse=True)`: stable descending sort. -/
def pySortDesc {α β : Type} [LinearOrder β] (key : α → β) : List α → List α
  | [] => []
  | x :: xs => insertDesc key x (pySortDesc key xs)

/- ### Data model (chat_groups / topics), shared by all components -/

/-- One discussion topic inside a chat group (§3 of the data model). -/
structure Topic where
  topic_id : String
  topic_name : String
  priority : String
  summaries : List String
  related_records : List String
  related_topics : List String
deriving Repr, DecidableEq

/-- One chat group: a transcript/community unit holding topics. -/
structure ChatGroup where
  group_id : String
  group_name : String
  description : String
  topics : List Topic
deriving Repr, DecidableEq

/- ### Search engine (Searcher.py) -/

/-- The group/topic name filters of `keyword_search` and friends: skip a group
when a non-empty filter string is not a (case-insensitive) substring of its
name.  A Python `None` or empty-string filter is falsy and filters nothing. -/
def passGroupFilter (gf : Option String) (g : ChatGroup) : Bool :=
  match gf with
  | none => true
  | some f => f.isEmpty || pyIn (pyLower f) (pyLower g.group_name)

/-- Topic-name filter, same convention as `passGroupFilter`. -/
def passTopicFilter (tf : Option String) (t : Topic) : Bool :=
  match tf with
  | none => true
  | some f => f.isEmpty || pyIn (pyLower f) (pyLower t.topic_name)

/-- Default searched fields of `keyword_search` when `fields is None`. -/
def defaultFields : List String :=
  ["group_name", "topic_name", "summaries", "related_topics"]

/-- The summaries of `t` containing the lowercased query (each scores +2). -/
def summaryMatches (ql : String) (t : Topic) : List String :=
  t.summaries.filter (fun s => pyIn ql (pyLower s))

/-- The related-topic names of `t` containing the lowercased query (+2 each). -/
def relatedMatches (ql : String) (t : Topic) : List String :=
  t.related_topics.filter (fun s => pyIn ql (pyLower s))

/-- The score accumulated by `keyword_search` for one (group, topic) pair:
+3 for a group-name match, +3 for a topic-name match, +2 per matching summary,
+2 per matching related-topic name, restricted to the enabled `fields`. -/
def keywordScore (fields : List String) (ql : String) (g : ChatGroup) (t : Topic) : Nat :=
  (if "group_name" ∈ fields ∧ pyIn ql (pyLower g.group_name) then 3 else 0) +
  (if "topic_name" ∈ fields ∧ pyIn ql (pyLower t.topic_name) then 3 else 0) +
  (if "summaries" ∈ fields then 2 * (summaryMatches ql t).length else 0) +
  (if "related_topics" ∈ fields then 2 * (relatedMatches ql t).length else 0)

/-- The `match_details` strings appended by `keyword_search`, in the order the
source appends them: group name, topic name, summaries, related topics. -/
def keywordDetails (fields : List String) (ql : String) (g : ChatGroup) (t : Topic) : List String :=
  (if "group_name" ∈ fields ∧ pyIn ql (pyLower g.group_name)
    then ["群组名称匹配: " ++ g.group_name] else []) ++
  (if "topic_name" ∈ fields ∧ pyIn ql (pyLower t.topic_name)
    then ["主题名称匹配: " ++ t.topic_name] else []) ++
  (if "summaries" ∈ fields
    then (summaryMatches ql t).map (fun s => "摘要匹配: " ++ s) else []) ++
  (if "related_topics" ∈ fields
    then (relatedMatches ql t).map (fun s => "相关主题匹配: " ++ s) else [])

/-- A keyword-search result row (the dict built by `keyword_search`). -/
structure KeywordResult where
  topic_id : String
  topic_name : String
  priority : String
  summaries : List String
  related_topics : List String
  group_id : String
  group_name : String
  description : String
  search_score : Nat
  match_details : List String
deriving Repr, DecidableEq

/-- The result row `keyword_search` appends for a scoring topic. -/
def mkKeywordResult (g : ChatGroup) (t : Topic) (score : Nat) (details : List String) :
    KeywordResult :=
  { topic_id := t.topic_id, topic_name := t.topic_name, priority := t.priority
    summaries := t.summaries, related_topics := t.related_topics
    group_id := g.group_id, group_name := g.group_name, description := g.description
    search_score := score, match_details := details }

/-- The unsorted result list of `keyword_search`: all filter-passing topics
with positive score, in group/topic encounter order. -/
def keywordCandidates (data : List ChatGroup) (query : String) (fields : List String)
    (gf tf : Option String) : List KeywordResult :=
  let ql := pyLower query
  (data.filter (passGroupFilter gf)).flatMap (fun g =>
    (g.topics.filter (passTopicFilter tf)).filterMap (fun t =>
      let score := keywordScore fields ql g t
      if 0 < score then some (mkKeywordResult g t score (keywordDetails fields ql g t))
      else none))

/-- Model of `Searcher.keyword_search`: score, keep positives, stable-sort by
descending score, no result-count limit. -/
def keyword_search (data : List ChatGroup) (query : String) (fields : List String)
    (gf tf : Option String) : List KeywordResult :=
  pySortDesc (fun r => r.search_score) (keywordCandidates data query fields gf tf)

/- ### AI semantic search (Searcher.py): result shaping and per-group cap -/

/-- The `topic_info` snapshot built by `_find_topic_by_id` (topic fields plus
its group's `group_info`). -/
structure TopicInfo where
  topic_id : String
  topic_name : String
  priority : String
  summaries : List String
  related_topics : List String
  group_id : String
  group_name : String
  description : String
deriving Repr, DecidableEq

/-- Model of `Searcher._find_topic_by_id`: first topic with the given id among groups
and topics passing the same name filters as the search. -/
def find_topic_by_id (data : List ChatGroup) (tid : String) (gf tf : Option String) :
    Option TopicInfo :=
  ((data.filter (passGroupFilter gf)).flatMap (fun g =>
    (g.topics.filter (passTopicFilter tf)).map (fun t => (g, t)))).findSome?
    (fun p =>
      if p.2.topic_id = tid then
        some { topic_id := p.2.topic_id, topic_name := p.2.topic_name
               priority := p.2.priority, summaries := p.2.summaries
               related_topics := p.2.related_topics
               group_id := p.1.group_id, group_name := p.1.group_name
               description := p.1.description }
      else none)

/-- One AI-variant search result (`search_type = "ai_semantic"`). -/
structure AIResult where
  topic_info : TopicInfo
  reasoning : String
  confidence : ℚ
deriving Repr, DecidableEq

/-- The model's decoded recommendation object: `recommended_topics` ids plus
the shared `reasoning` and `confidence` (default 0.5 handled by the caller's
decode oracle). -/
structure AIParsed where
  recommended_topics : List String
  reasoning : String
  confidence : ℚ
deriving Repr, DecidableEq

/-- The per-group grouping stage of `_limit_results_per_group`: group keys in
first-encounter order (Python dict insertion order). -/
def groupKeys (rs : List AIResult) : List String :=
  rs.foldl (fun acc r =>
    if r.topic_info.group_id ∈ acc then acc else acc ++ [r.topic_info.group_id]) []

/-- The intermediate `limited_results` of `_limit_results_per_group`: for each
group key in encounter order, that group's candidates sorted by descending
confidence, truncated to the top 3. -/
def limitPerGroupStage (rs : List AIResult) : List AIResult :=
  (groupKeys rs).flatMap (fun gid =>
    (pySortDesc (fun r => r.confidence)
      (rs.filter (fun r => r.topic_info.group_id = gid))).take 3)

/-- Model of `Searcher._limit_results_per_group`: cap each group at its 3 highest-
confidence candidates, then sort the survivors globally by descending
confidence and truncate to `maxResults`. -/
def limit_results_per_group (rs : List AIResult) (maxResults : Nat) : List AIResult :=
  (pySortDesc (fun r => r.confidence) (limitPerGroupStage rs)).take maxResults

/-- The result-building tail of `_parse_ai_response` followed by the single-
shot search's cap: take up to `2 * maxResults` recommended ids, resolve each
through `_find_topic_by_id` (skipping unresolvable ids), attach the shared
reasoning/confidence, then apply `_limit_results_per_group`.  The LLM call and
JSON decode are external capabilities; their parsed outcome is the `parsed`
argument (`none` models any caught LLM/parse failure, which yields `[]`). -/
def ai_semantic_search_single (data : List ChatGroup) (parsed : Option AIParsed)
    (maxResults : Nat) (gf tf : Option String) : List AIResult :=
  match parsed with
  | none => []
  | some p =>
    limit_results_per_group
      ((p.recommended_topics.take (maxResults * 2)).filterMap (fun tid =>
        (find_topic_by_id data tid gf tf).map (fun ti =>
          { topic_info := ti, reasoning := p.reasoning, confidence := p.confidence })))
      maxResults

/-- The dictionary returned by the combined `Searcher.search`. -/
structure SearchOutput where
  query : String
  keyword_results : List KeywordResult
  ai_recommendations : List AIResult
  filter_group_name : Option String
  filter_topic_name : Option String
  stat_keyword_matches : Nat
  stat_ai_recommendations : Nat
deriving Repr, DecidableEq

/-- Python's `str.strip()`: drop leading and trailing whitespace. -/
def pyStrip (s : String) : String :=
  String.mk (((s.data.dropWhile Char.isWhitespace).reverse.dropWhile
    Char.isWhitespace).reverse)

/-- Model of `Searcher.search`: always keyword search; AI search only when `use_ai` and
the stripped query is non-empty.  The AI phase receives the same data and
filters and no exclusion list (the source's `ai_semantic_search` has no
`exclude_topic_ids` parameter). -/
def searchCombined (data : List ChatGroup) (query : String) (use_ai : Bool)
    (aiMaxResults : Nat) (gf tf : Option String) (parsed : Option AIParsed) :
    SearchOutput :=
  let kw := keyword_search data query defaultFields gf tf
  let ai := if use_ai ∧ ¬ (pyStrip query).isEmpty
            then ai_semantic_search_single data parsed aiMaxResults gf tf else []
  { query := query, keyword_results := kw, ai_recommendations := ai
    filter_group_name := gf, filter_topic_name := tf
    stat_keyword_matches := kw.length, stat_ai_recommendations := ai.length }

/- ### LLM-response JSON extraction (api_use._parse_api_response and
   Searcher._parse_ai_response)

Both locate the span matched by the greedy dot-all regex on braces: it starts
at the first brace-open that has any brace-close after it and ends at the last
brace-close of the text.  JSON decoding itself (`json.loads`) is an external
capability, passed in as a `jdecode` oracle returning `none` on a decode
error. -/

/-- The substring matched by the greedy dot-all brace regex: from the first
opening brace that precedes the final closing brace, through that final
closing brace; `none` when no such span exists. -/
def extractBrace (s : List Char) : Option (List Char) :=
  let p := (s.reverse.dropWhile (fun c => c ≠ '\x7d')).reverse
  let q := p.dropWhile (fun c => c ≠ '\x7b')
  if q.isEmpty then none else some q

/-- String-level wrapper for `extractBrace`. -/
def extractBraceStr (s : String) : Option String :=
  (extractBrace s.data).map (fun l => String.mk l)

/-- The code-fence stripping retry of `_parse_api_response`: strip the
response, drop a leading 7-character json fence, then a leading 3-character
fence, then a trailing fence, in that order. -/
def stripFences (s : String) : String :=
  let s0 := s.trim
  let s1 := if s0.startsWith "```json" then s0.drop 7 else s0
  let s2 := if s1.startsWith "```" then s1.drop 3 else s1
  if s2.endsWith "```" then s2.dropRight 3 else s2

/-- Python `s[:200]` used in the diagnostic message. -/
def pyTake200 (s : String) : String := String.mk (s.data.take 200)

/-- Model of `ChatAnalyzer._parse_api_response`: decode the first brace span; a
response with no span raises at once (its message does not embed the
response); a span that fails to decode triggers one fence-stripping retry on
the whole stripped response, and only that second failure raises the message
carrying the first 200 characters of the raw response. -/
def parse_api_response {J : Type} (jdecode : String → Option J) (s : String) :
    Except String J :=
  match extractBraceStr s with
  | none => .error "API响应中没有找到有效的JSON格式"
  | some span =>
    match jdecode span with
    | some v => .ok v
    | none =>
      match jdecode (stripFences s) with
      | some v => .ok v
      | none => .error ("无法解析API响应为JSON\n响应内容: " ++ pyTake200 s ++ "...")

/-- The JSON-extraction phase of `Searcher._parse_ai_response`: decode the
first brace span; both a missing span and a decode failure are caught, logged
and yield `none` (so the search contributes an empty result list); there is no
fence-stripping retry and nothing is raised. -/
def searcher_extract_json {J : Type} (jdecode : String → Option J) (s : String) :
    Option J :=
  match extractBraceStr s with
  | none => none
  | some span => jdecode span

/- ### Topic-relationship graph loaders (graphs.py and graph.py) -/

/-- The outcome of reading and JSON-decoding the backing file: the file is
missing, its content is malformed JSON, or it decodes to a `chat_groups`
list.  File I/O and `json.load` are external capabilities. -/
inductive FileState where
  | missing : FileState
  | malformed : FileState
  | valid : List ChatGroup → FileState
deriving Repr, DecidableEq

/-- The two-group sample content of `graphs.TopicGraph.load_default_data`. -/
def defaultChatGroups : List ChatGroup :=
  [{ group_id := "group_001", group_name := "技术交流群"
     description := "程序员技术讨论群"
     topics :=
      [{ topic_id := "topic_001_01", topic_name := "Python异步编程", priority := "中"
         summaries := ["讨论了asyncio的基本原理和使用方法",
                       "对比了async/await与传统多线程的优劣",
                       "分享了常见异步编程的坑和解决方案"]
         related_records := ["2024-01-15 10:30:15 用户A: 大家有使用过asyncio吗？",
                             "2024-01-15 10:35:22 用户B: 我们项目在用，性能提升很明显",
                             "2024-01-15 10:40:18 用户C: 但是调试比较麻烦，有什么好方法？"]
         related_topics := ["异步IO性能调优", "协程与生成器对比"] },
       { topic_id := "topic_001_02", topic_name := "异步IO性能调优", priority := "中"
         summaries := ["讨论了异步IO在高并发场景下的性能优化",
                       "分享了异步上下文管理的技巧",
                       "总结了异步编程中的内存管理"]
         related_records := ["2024-01-16 14:20:33 用户D: 异步IO在高并发下有什么优化技巧？",
                             "2024-01-16 14:25:47 用户E: 连接池管理很重要",
                             "2024-01-16 14:30:12 用户A: 异步上下文管理器可以减少资源泄漏"]
         related_topics := ["异步数据库连接池", "异步任务队列设计", "Python异步编程"] }] },
   { group_id := "group_002", group_name := "产品经理交流群"
     description := "产品设计与需求讨论"
     topics :=
      [{ topic_id := "topic_002_01", topic_name := "用户需求分析方法", priority := "中"
         summaries := ["分享了用户访谈的技巧和注意事项",
                       "讨论了如何识别伪需求和核心需求",
                       "总结了需求优先级排序的方法论"]
         related_records := ["2024-01-17 09:15:28 用户A: 用户总说想要更多功能，但实际不用",
                             "2024-01-17 09:20:45 用户B: 要用Jobs-to-be-done框架分析",
                             "2024-01-17 09:25:33 用户C: 我们团队用Kano模型效果不错"]
         related_topics := ["用户画像构建方法", "需求验证实验设计"] }] }]

/-- Model of `graphs.TopicGraph.load_from_json` (the bidirectional variant used by the
dashboard): a missing file falls back to `load_default_data`'s sample groups;
malformed JSON raises (`json.JSONDecodeError` is not caught); a valid file
yields its `chat_groups` (defaulting to `[]` when the key is absent). -/
def graphs_load_from_json (fs : FileState) : Except String (List ChatGroup) :=
  match fs with
  | .missing => .ok defaultChatGroups
  | .malformed => .error "json.JSONDecodeError"
  | .valid gs => .ok gs

/-- Model of `graph.TopicGraph.load_from_json` (the directed-edge variant): both a
missing file and malformed JSON fall back to an empty `chat_groups` list;
construction never raises. -/
def graph_load_from_json (fs : FileState) : List ChatGroup :=
  match fs with
  | .missing => []
  | .malformed => []
  | .valid gs => gs

/- ### Graph construction and incremental mutation (graphs.py)

Python dicts are modelled as association lists with insertion-order keys:
assignment to an existing key replaces its value in place, a new key is
appended. -/

/-- Python `d.get(k)` on an association list. -/
def dictGet? {α : Type} (d : List (String × α)) (k : String) : Option α :=
  (d.find? (fun p => p.1 == k)).map (fun p => p.2)

/-- Python `d[k] = v`: replace in place if the key exists, else append. -/
def dictSet {α : Type} (d : List (String × α)) (k : String) (v : α) :
    List (String × α) :=
  if (d.find? (fun p => p.1 == k)).isSome then
    d.map (fun p => if p.1 == k then (k, v) else p)
  else d ++ [(k, v)]

/-- The full state of `graphs.TopicGraph`: data, adjacency dict, and the two
name indexes. -/
structure GraphState where
  chat_groups : List ChatGroup
  graph : List (String × List String)
  topic_id_to_name : List (String × String)
  topic_name_to_id : List (String × String)
deriving Repr, DecidableEq

/-- All topics of all groups, in encounter order. -/
def allTopics (gs : List ChatGroup) : List Topic := gs.flatMap (fun g => g.topics)

/-- Python `self.graph[k].append(v)` guarded by `if v not in self.graph[k]`;
an absent key (impossible in the modelled call sites) leaves the dict
unchanged. -/
def graphAppendIfAbsent (g : List (String × List String)) (k v : String) :
    List (String × List String) :=
  match dictGet? g k with
  | none => g
  | some ns => if v ∈ ns then g else dictSet g k (ns ++ [v])

/-- Add the bidirectional edge `tid ↔ rid` (each direction only if absent). -/
def linkPair (g : List (String × List String)) (tid rid : String) :
    List (String × List String) :=
  graphAppendIfAbsent (graphAppendIfAbsent g tid rid) rid tid

/-- Resolution of one related-topic name: a name resolving to nothing, to a
falsy (empty) id, or to the topic itself adds no edge; otherwise both
directions are linked. -/
def linkStep (nameToId : List (String × String)) (tid : String)
    (gg : List (String × List String)) (nm : String) : List (String × List String) :=
  match dictGet? nameToId nm with
  | none => gg
  | some rid => if rid = "" ∨ rid = tid then gg else linkPair gg tid rid

/-- The linking step for one topic: resolve each of its related-topic names in
order. -/
def linkTopic (nameToId : List (String × String)) (g : List (String × List String))
    (t : Topic) : List (String × List String) :=
  t.related_topics.foldl (linkStep nameToId t.topic_id) g

/-- The id-to-name index built by the first pass of
`_build_graph_from_data` (later topics overwrite earlier entries in place). -/
def buildIdToName (ts : List Topic) : List (String × String) :=
  ts.foldl (fun d t => dictSet d t.topic_id t.topic_name) []

/-- The name-to-id index built by the first pass. -/
def buildNameToId (ts : List Topic) : List (String × String) :=
  ts.foldl (fun d t => dictSet d t.topic_name t.topic_id) []

/-- The adjacency dict after the first pass: an empty list per topic id. -/
def buildGraphInit (ts : List Topic) : List (String × List String) :=
  ts.foldl (fun d t => dictSet d t.topic_id []) []

/-- Model of `graphs.TopicGraph._build_graph_from_data`: the first pass
rebuilds both name indexes and an empty adjacency list per topic id (each dict
written independently per topic, here as one fold per dict over the same topic
sequence); the second pass links every topic's resolvable related names
bidirectionally against the completed name index. -/
def build_graph_from_data (gs : List ChatGroup) : GraphState :=
  { chat_groups := gs
    graph := (allTopics gs).foldl
      (fun g t => linkTopic (buildNameToId (allTopics gs)) g t)
      (buildGraphInit (allTopics gs))
    topic_id_to_name := buildIdToName (allTopics gs)
    topic_name_to_id := buildNameToId (allTopics gs) }

/- ### Decimal formatting of `f"{n:0{w}d}"` id suffixes -/

/-- Little-endian decimal digits of `n`, with explicit fuel (`fuel = n`
suffices) so the definition is structural and kernel-evaluable. -/
def toDigitsLE (fuel n : Nat) : List Nat :=
  match fuel with
  | 0 => []
  | f + 1 => if n = 0 then [] else n % 10 :: toDigitsLE f (n / 10)

/-- A decimal digit as a character. -/
def digitChar (d : Nat) : Char := Char.ofNat (48 + d)

/-- Decimal rendering of a positive natural (renders `0` as the empty string,
which every use below pads to the Python form). -/
def natStr (n : Nat) : String := String.mk ((toDigitsLE n n).reverse.map digitChar)

/-- Python `f"{n:0{w}d}"`: zero-pad the decimal rendering to width `w`. -/
def padNum (w n : Nat) : String :=
  let s := natStr n
  if s.length < w then String.mk (List.replicate (w - s.length) '0') ++ s else s

/-- Find the first group with the given id and update it (later duplicates,
which Python's `break` never reaches, are untouched). -/
def updateFirstGroup (gs : List ChatGroup) (gid : String) (f : ChatGroup → ChatGroup) :
    List ChatGroup :=
  match gs with
  | [] => []
  | g :: rest =>
    if g.group_id == gid then f g :: rest else g :: updateFirstGroup rest gid f

/-- Model of `graphs.TopicGraph.add_topic_simple`: an unknown group id leaves
the state unchanged; otherwise a topic id `topic_{groupId}_{count+1:02d}` is
synthesized, the topic is appended, the indexes and an empty adjacency entry
are added, and only the new topic's resolvable related names are linked. -/
def add_topic_simple (st : GraphState) (group_id topic_name priority description : String)
    (related_topics : List String) : GraphState :=
  match st.chat_groups.find? (fun g => g.group_id == group_id) with
  | none => st
  | some g =>
    let tid := "topic_" ++ group_id ++ "_" ++ padNum 2 (g.topics.length + 1)
    let newTopic : Topic :=
      { topic_id := tid, topic_name := topic_name, priority := priority
        summaries := if description = "" then [] else [description]
        related_records := [], related_topics := related_topics }
    let nameToId := dictSet st.topic_name_to_id topic_name tid
    let g1 := dictSet st.graph tid []
    let g2 := related_topics.foldl (linkStep nameToId tid) g1
    { chat_groups := updateFirstGroup st.chat_groups group_id
        (fun h => { h with topics := h.topics ++ [newTopic] })
      graph := g2
      topic_id_to_name := dictSet st.topic_id_to_name tid topic_name
      topic_name_to_id := nameToId }

/-- The adjacency list of a topic id (empty when the id is absent). -/
def graphList (st : GraphState) (k : String) : List String :=
  (dictGet? st.graph k).getD []

/-- The claimed adjacency invariant: every related-topic name of every topic
that resolves through the name index to a truthy id of a different topic is
linked in both directions. -/
def adjacencyInvariant (st : GraphState) : Prop :=
  ∀ g ∈ st.chat_groups, ∀ t ∈ g.topics, ∀ nm ∈ t.related_topics, ∀ rid : String,
    dictGet? st.topic_name_to_id nm = some rid → rid ≠ "" → rid ≠ t.topic_id →
      rid ∈ graphList st t.topic_id ∧ t.topic_id ∈ graphList st rid

/- ### Group creation and deletion (api_use._update_chat_structure and
   frontmanager._delete_group_data) -/

/-- The id assigned to the n-th created group: `group_{n:03d}`. -/
def group_id_format (n : Nat) : String := "group_" ++ padNum 3 n

/-- The id of the n-th topic of a group: `topic_{suffix}_{n:02d}`. -/
def topic_id_format (suffix : String) (n : Nat) : String :=
  "topic_" ++ suffix ++ "_" ++ padNum 2 n

/-- Append the extracted topics to a group, assigning ids sequentially from
the group's current topic count, with the suffix obtained by deleting every
`group_` occurrence from the group id. -/
def appendTopicsToGroup (g : ChatGroup) (new_topics : List Topic) : ChatGroup :=
  let suffix := g.group_id.replace "group_" ""
  { g with topics := new_topics.foldl (fun acc t =>
      acc ++ [{ t with topic_id := topic_id_format suffix (acc.length + 1) }]) g.topics }

/-- Model of `ChatAnalyzer._update_chat_structure`: locate an existing group
by exact name; if none is found (or the found id is Python-falsy), create a
group whose id is derived from the current group count; then append the new
topics to the first group carrying the target id.  The `topic_id` field of
each input topic is overwritten, mirroring the source's assignment into the
model-returned dicts. -/
def update_chat_structure (struct : List ChatGroup) (group_name : String)
    (new_topics : List Topic) (description : String) : List ChatGroup :=
  let found := (struct.find? (fun g => g.group_name == group_name)).map
    (fun g => g.group_id)
  match found with
  | some gid =>
    if gid = "" then
      let gid2 := group_id_format (struct.length + 1)
      updateFirstGroup
        (struct ++ [{ group_id := gid2, group_name := group_name
                      description := description, topics := [] }]) gid2
        (fun g => appendTopicsToGroup g new_topics)
    else updateFirstGroup struct gid (fun g => appendTopicsToGroup g new_topics)
  | none =>
    let gid2 := group_id_format (struct.length + 1)
    updateFirstGroup
      (struct ++ [{ group_id := gid2, group_name := group_name
                    description := description, topics := [] }]) gid2
      (fun g => appendTopicsToGroup g new_topics)

/-- Model of `frontmanager._delete_group_data`'s structural effect: remove
every group with the given id. -/
def delete_group_data (gs : List ChatGroup) (gid : String) : List ChatGroup :=
  gs.filter (fun g => g.group_id ≠ gid)

/-- One dashboard-reachable structural operation on `chat_groups`. -/
inductive StructOp where
  | create (group_name : String) (new_topics : List Topic) (description : String)
  | delete (gid : String)
deriving Repr

/-- Apply one operation. -/
def applyOp (gs : List ChatGroup) : StructOp → List ChatGroup
  | .create gn nts d => update_chat_structure gs gn nts d
  | .delete gid => delete_group_data gs gid

/-- Apply a sequence of operations in order. -/
def applyOps (gs : List ChatGroup) (ops : List StructOp) : List ChatGroup :=
  ops.foldl applyOp gs

/- ### Interval validation, coverage and repair
   (api_use._validate_and_convert_intervals, allow_overlap=True — the only
   mode `analyze_topics` uses — and api_use._assign_uncovered_records) -/

/-- One model-returned interval before validation: either not a list at all,
or a list of values each of which is (`some k`) or is not (`none`) convertible
to an integer by Python's `int()`. -/
inductive RawInterval where
  | notList : RawInterval
  | ofList : List (Option Int) → RawInterval
deriving Repr, DecidableEq

/-- One model-returned topic as consumed by interval validation. -/
structure MTopic where
  topic_name : String
  priority : String
  summaries : List String
  record_intervals : List RawInterval
  related_topics : List String
deriving Repr, DecidableEq

/-- Validation of one interval against `n` records, with the source's check
order: list-of-length-2 shape, integer convertibility, range, ordering. -/
def validateInterval (n : Nat) (iv : RawInterval) : Except String (Int × Int) :=
  match iv with
  | .notList => .error "区间格式错误: 应为 [开始索引, 结束索引]"
  | .ofList es =>
    if es.length ≠ 2 then .error "区间格式错误: 应为 [开始索引, 结束索引]"
    else
      match es with
      | [some s, some e] =>
        if s < 1 ∨ e > (n : Int) then .error "区间超出记录范围"
        else if s > e then .error "区间起始索引不能大于结束索引"
        else .ok (s, e)
      | _ => .error "区间索引必须为整数"

/-- Validation of one topic's intervals: a missing or empty `record_intervals`
is an error naming the topic; otherwise each interval is validated in order,
surfacing the first failure. -/
def validateTopicIntervals (n : Nat) (t : MTopic) : Except String (List (Int × Int)) :=
  if t.record_intervals.isEmpty then
    .error ("话题 " ++ t.topic_name ++ " 缺少 record_intervals 字段")
  else
    t.record_intervals.foldl
      (fun acc iv => acc.bind (fun l => (validateInterval n iv).map (fun p => l ++ [p])))
      (.ok [])

/-- The validation pass over all topics, in order, first failure wins;
success yields each topic's converted interval list. -/
def validateTopics (n : Nat) (ts : List MTopic) :
    Except String (List (List (Int × Int))) :=
  ts.foldl
    (fun acc t => acc.bind (fun ls => (validateTopicIntervals n t).map (fun l => ls ++ [l])))
    (.ok [])

/-- Does some interval of this list cover 1-based index `i`? -/
def coversIdx (ivs : List (Int × Int)) (i : Int) : Bool :=
  ivs.any (fun p => decide (p.1 ≤ i) && decide (i ≤ p.2))

/-- Is 1-based index `i` covered by some interval of some topic? -/
def coveredAny (ivss : List (List (Int × Int))) (i : Int) : Bool :=
  ivss.any (fun ivs => coversIdx ivs i)

/-- The ascending list of uncovered 1-based indices. -/
def uncoveredList (ivss : List (List (Int × Int))) (n : Nat) : List Int :=
  ((List.range n).map (fun k => Int.ofNat k + 1)).filter (fun i => ! coveredAny ivss i)

/-- The position, relative to the nearest interval, at which an uncovered
index is attached. -/
inductive RepairPos where
  | before : RepairPos
  | after : RepairPos
deriving Repr, DecidableEq

/-- The running minimum of `_assign_uncovered_records`' nearest-boundary scan
(`minDist = none` is the initial infinity; ties keep the first minimum). -/
structure BestSt where
  minDist : Option Int
  bestIdx : Nat
  bestPos : RepairPos
deriving Repr, DecidableEq

/-- Python's `distance < min_distance` with `min_distance` possibly infinite. -/
def distLt (d : Int) (cur : Option Int) : Bool :=
  match cur with
  | none => true
  | some m => decide (d < m)

/-- One step of the nearest-boundary scan over one interval of topic `ti`. -/
def scanStep (idx : Int) (ti : Nat) (st : BestSt) (p : Int × Int) : BestSt :=
  if idx < p.1 then
    if distLt (p.1 - idx) st.minDist then
      { minDist := some (p.1 - idx), bestIdx := ti, bestPos := .before }
    else st
  else if idx > p.2 then
    if distLt (idx - p.2) st.minDist then
      { minDist := some (idx - p.2), bestIdx := ti, bestPos := .after }
    else st
  else st

/-- The whole nearest-boundary scan: all topics, all intervals, in order. -/
def scanBest (ivss : List (List (Int × Int))) (idx : Int) : BestSt :=
  (ivss.enum).foldl (fun st pair => pair.2.foldl (scanStep idx pair.1) st)
    { minDist := none, bestIdx := 0, bestPos := .before }

/-- Attach `idx` on the "before" side: extend the first interval down by one
if contiguous, else insert a singleton at the front. -/
def updateIntervalsBefore : List (Int × Int) → Int → List (Int × Int)
  | [], idx => [(idx, idx)]
  | p :: rest, idx =>
    if p.1 = idx + 1 then (idx, p.2) :: rest else (idx, idx) :: p :: rest

/-- Attach `idx` on the "after" side: extend the last interval up by one if
contiguous, else append a singleton. -/
def updateIntervalsAfter (ivs : List (Int × Int)) (idx : Int) : List (Int × Int) :=
  match ivs.getLast? with
  | none => [(idx, idx)]
  | some q => if q.2 = idx - 1 then ivs.dropLast ++ [(q.1, idx)] else ivs ++ [(idx, idx)]

/-- Attach `idx` at the chosen side. -/
def updateIntervals (ivs : List (Int × Int)) (idx : Int) : RepairPos → List (Int × Int)
  | .before => updateIntervalsBefore ivs idx
  | .after => updateIntervalsAfter ivs idx

/-- Repair one uncovered index: scan for the nearest boundary and attach the
index to the winning topic's interval list. -/
def assignOne (ivss : List (List (Int × Int))) (idx : Int) : List (List (Int × Int)) :=
  let st := scanBest ivss idx
  ivss.set st.bestIdx (updateIntervals (ivss.getD st.bestIdx []) idx st.bestPos)

/-- Model of `ChatAnalyzer._assign_uncovered_records`: with no topics (or no
uncovered indices) nothing happens; otherwise the uncovered indices are
processed in ascending order. -/
def assign_uncovered_records (ivss : List (List (Int × Int))) (uncov : List Int) :
    List (List (Int × Int)) :=
  if ivss.isEmpty then ivss else uncov.foldl assignOne ivss

/-- Python `records[start-1:end]` for a validated interval. -/
def sliceRecords (records : List String) (p : Int × Int) : List String :=
  (records.drop (p.1 - 1).toNat).take (p.2 - (p.1 - 1)).toNat

/-- The interval-to-records conversion: concatenation of the slices. -/
def convertRecords (records : List String) (ivs : List (Int × Int)) : List String :=
  ivs.flatMap (sliceRecords records)

/-- One topic after validation, repair and conversion. -/
structure VTopic where
  topic : MTopic
  record_intervals : List (Int × Int)
  related_records : List String
deriving Repr, DecidableEq

/-- Model of `ChatAnalyzer._validate_and_convert_intervals` in its
`allow_overlap=True` mode (the only one `analyze_topics` uses): validate every
topic's intervals, compute the uncovered indices, repair them, then convert
every topic's final intervals into literal record lists. -/
def validate_and_convert_intervals (ts : List MTopic) (records : List String) :
    Except String (List VTopic) :=
  (validateTopics records.length ts).map (fun ivss =>
    let ivss2 := assign_uncovered_records ivss (uncoveredList ivss records.length)
    (ts.zip ivss2).map (fun pr =>
      { topic := pr.1, record_intervals := pr.2
        related_records := convertRecords records pr.2 }))

/- ### Lemmas about the stable descending sort -/

/-- A dataset and model recommendation exhibiting keyword/AI overlap. -/
def topicDeploy : Topic :=
  { topic_id := "topic_001_01", topic_name := "部署流程", priority := "高"
    summaries := ["使用Docker部署"], related_records := [], related_topics := [] }

/-- The group holding `topicDeploy`. -/
def groupDeploy : ChatGroup :=
  { group_id := "group_001", group_name := "技术群", description := "测试"
    topics := [topicDeploy] }

/-- A model response recommending the very topic the keyword phase matches. -/
def parsedDeploy : AIParsed :=
  { recommended_topics := ["topic_001_01"], reasoning := "相关", confidence := 1 }

/-- A decode oracle defined on exactly one JSON object text. -/
def jdecodeW : String → Option Unit :=
  fun t => if t = "\x7b\"k\": 1\x7d" then some () else none

/-- The value of a little-endian digit list. -/
def valLE : List Nat → Nat
  | [] => 0
  | d :: L => d + 10 * valLE L

/-- The numeric reading of a big-endian decimal character string; leading
zeros do not change the value, giving a left inverse of the padded format. -/
def strValBE (l : List Char) : Nat := l.foldl (fun a c => 10 * a + (c.toNat - 48)) 0

/-- The canonical shape of a structure reachable by creations alone: the i-th
group carries id `group_{i+1:03d}`. -/
def idsCanonical (gs : List ChatGroup) : Prop :=
  gs.map (fun g => g.group_id) =
    (List.range gs.length).map (fun i => group_id_format (i + 1))

/-- Creation-only operation sequences. -/
def isCreateOp : StructOp → Prop
  | .create _ _ _ => True
  | .delete _ => False

/-- The claim's rejection predicate for one model-returned interval: not a
2-element pair, an element not convertible to an integer, start below 1, end
above N, or start exceeding end. -/
def badInterval (n : Nat) : RawInterval → Prop
  | .notList => True
  | .ofList es => es.length ≠ 2 ∨ none ∈ es ∨
      ∃ s e : Int, es = [some s, some e] ∧ (s < 1 ∨ e > (n : Int) ∨ s > e)

/-- Goodness of validated interval lists: inside [1, n] and well-ordered. -/
def GoodAll (n : Int) (ivss : List (List (Int × Int))) : Prop :=
  ∀ ivs ∈ ivss, ∀ p ∈ ivs, 1 ≤ p.1 ∧ p.1 ≤ p.2 ∧ p.2 ≤ n

/-- A topic whose single interval [1,1] under-covers a 2-record transcript. -/
def topicSparseW : MTopic :=
  { topic_name := "话题B", priority := "中", summaries := []
    record_intervals := [RawInterval.ofList [some 1, some 1]], related_topics := [] }

/-- The repaired output topic: the interval is extended to [1,2]. -/
def vtopicRepairedW : VTopic :=
  { topic := topicSparseW, record_intervals := [(1, 2)]
    related_records := ["aaaa", "bbbb"] }

/-- A topic carrying the rejected interval [0,5]. -/
def badTopicW : MTopic :=
  { topic_name := "话题A", priority := "高", summaries := []
    record_intervals := [RawInterval.ofList [some 0, some 5]], related_topics := [] }

/-- The adjacency list behind a raw dict key (empty when absent). -/
def lkup (g : List (String × List String)) (k : String) : List String :=
  (dictGet? g k).getD []

/-- The topic id synthesized by `add_topic_simple` for a group with its current
topic count. -/
def addTid (group_id : String) (g : ChatGroup) : String :=
  "topic_" ++ group_id ++ "_" ++ padNum 2 (g.topics.length + 1)

/-- A pre-existing topic named `B` for the witness scenario. -/
def topicB : Topic :=
  { topic_id := "tB", topic_name := "B", priority := "高",
    summaries := [], related_records := [], related_topics := [] }

/-- The witness group holding only `topicB`. -/
def gPre : ChatGroup :=
  { group_id := "g1", group_name := "G", description := "", topics := [topicB] }

/-- The witness data: one group, one topic. -/
def gsPre : List ChatGroup := [gPre]

/-- A topic whose related name `B` is dangling at build time. -/
def topicA1 : Topic :=
  { topic_id := "t1", topic_name := "A", priority := "高",
    summaries := [], related_records := [], related_topics := ["B"] }

/-- The counterexample group holding only `topicA1`. -/
def gDangle : ChatGroup :=
  { group_id := "g1", group_name := "G", description := "", topics := [topicA1] }

/-- The counterexample data: one group, one topic with a dangling related name. -/
def gsDangle : List ChatGroup := [gDangle]

/- ### Theorems -/

theorem insertDesc_perm {α β : Type} [LinearOrder β] (key : α → β) (x : α)
    (l : List α) : (insertDesc key x l).Perm (x :: l) := by
  induction l with
  | nil => simp [insertDesc]
  | cons y ys ih =>
    simp only [insertDesc]
    by_cases h : key y ≤ key x
    · simp [h]
    · rw [if_neg h]
      exact List.Perm.trans (ih.cons y) (List.Perm.swap x y ys)

theorem pySortDesc_perm {α β : Type} [LinearOrder β] (key : α → β) (l : List α) :
    (pySortDesc key l).Perm l := by
  induction l with
  | nil => simp [pySortDesc]
  | cons x xs ih =>
    exact List.Perm.trans (insertDesc_perm key x (pySortDesc key xs)) (ih.cons x)

theorem insertDesc_sorted {α β : Type} [LinearOrder β] (key : α → β) (x : α)
    (l : List α) (hl : l.Pairwise (fun a b => key b ≤ key a)) :
    (insertDesc key x l).Pairwise (fun a b => key b ≤ key a) := by
  induction l with
  | nil => simp [insertDesc]
  | cons y ys ih =>
    rcases List.pairwise_cons.mp hl with ⟨hy, hys⟩
    simp only [insertDesc]
    by_cases h : key y ≤ key x
    · rw [if_pos h]
      refine List.pairwise_cons.mpr ⟨?_, hl⟩
      intro z hz
      rcases List.mem_cons.mp hz with rfl | hz'
      · exact h
      · exact le_trans (hy z hz') h
    · rw [if_neg h]
      refine List.pairwise_cons.mpr ⟨?_, ih hys⟩
      intro z hz
      rcases List.mem_cons.mp ((insertDesc_perm key x ys).mem_iff.mp hz) with rfl | hz'
      · exact le_of_lt (lt_of_not_le h)
      · exact hy z hz'

theorem pySortDesc_sorted {α β : Type} [LinearOrder β] (key : α → β) (l : List α) :
    (pySortDesc key l).Pairwise (fun a b => key b ≤ key a) := by
  induction l with
  | nil => simp [pySortDesc]
  | cons x xs ih => exact insertDesc_sorted key x (pySortDesc key xs) ih

theorem insertDesc_filter_key {α β : Type} [LinearOrder β] (key : α → β) (x : α)
    (l : List α) (k : β) :
    (insertDesc key x l).filter (fun a => decide (key a = k)) =
      if key x = k then x :: l.filter (fun a => decide (key a = k))
      else l.filter (fun a => decide (key a = k)) := by
  induction l with
  | nil =>
    by_cases hx : key x = k <;> simp [insertDesc, List.filter, hx]
  | cons y ys ih =>
    simp only [insertDesc]
    by_cases h : key y ≤ key x
    · rw [if_pos h]
      by_cases hx : key x = k
      · rw [if_pos hx]
        simp only [List.filter_cons, hx]
        simp
      · rw [if_neg hx]
        simp only [List.filter_cons]
        simp [hx]
    · have hyk : key x < key y := lt_of_not_le h
      rw [if_neg h]
      by_cases hx : key x = k
      · have hy : ¬ (key y = k) := by
          intro hcon
          rw [hx, hcon] at hyk
          exact lt_irrefl k hyk
        rw [if_pos hx]
        simp only [List.filter_cons, hy, ih, if_pos hx]
        simp [hy]
      · rw [if_neg hx]
        simp only [List.filter_cons, ih, if_neg hx]

theorem pySortDesc_filter_key {α β : Type} [LinearOrder β] (key : α → β)
    (l : List α) (k : β) :
    (pySortDesc key l).filter (fun a => decide (key a = k)) =
      l.filter (fun a => decide (key a = k)) := by
  induction l with
  | nil => rfl
  | cons x xs ih =>
    simp only [pySortDesc, insertDesc_filter_key, List.filter_cons]
    by_cases hx : key x = k <;> simp [hx, ih]

theorem pySortDesc_length {α β : Type} [LinearOrder β] (key : α → β) (l : List α) :
    (pySortDesc key l).length = l.length :=
  (pySortDesc_perm key l).length_eq

theorem pySortDesc_mem {α β : Type} [LinearOrder β] (key : α → β) (l : List α)
    (x : α) : x ∈ pySortDesc key l ↔ x ∈ l :=
  (pySortDesc_perm key l).mem_iff

/- ### Lemmas about keyword search -/

theorem keywordCandidates_mem (data : List ChatGroup) (query : String)
    (fields : List String) (gf tf : Option String) (r : KeywordResult) :
    r ∈ keywordCandidates data query fields gf tf ↔
      ∃ g ∈ data, passGroupFilter gf g = true ∧
        ∃ t ∈ g.topics, passTopicFilter tf t = true ∧
          0 < keywordScore fields (pyLower query) g t ∧
          r = mkKeywordResult g t (keywordScore fields (pyLower query) g t)
                (keywordDetails fields (pyLower query) g t) := by
  simp only [keywordCandidates, List.mem_flatMap, List.mem_filterMap, List.mem_filter]
  constructor
  · rintro ⟨g, ⟨hg, hgf⟩, t, ⟨ht, htf⟩, hsome⟩
    by_cases hpos : 0 < keywordScore fields (pyLower query) g t
    · rw [if_pos hpos] at hsome
      exact ⟨g, hg, hgf, t, ht, htf, hpos, (Option.some_inj.mp hsome).symm⟩
    · rw [if_neg hpos] at hsome
      exact absurd hsome (Option.noConfusion)
  · rintro ⟨g, hg, hgf, t, ht, htf, hpos, rfl⟩
    exact ⟨g, ⟨hg, hgf⟩, t, ⟨ht, htf⟩, by rw [if_pos hpos]⟩

theorem keywordScore_default (ql : String) (g : ChatGroup) (t : Topic) :
    keywordScore defaultFields ql g t =
      (if pyIn ql (pyLower g.group_name) then 3 else 0) +
      (if pyIn ql (pyLower t.topic_name) then 3 else 0) +
      2 * t.summaries.countP (fun s => pyIn ql (pyLower s)) +
      2 * t.related_topics.countP (fun s => pyIn ql (pyLower s)) := by
  have h1 : ("group_name" ∈ defaultFields) = True := by simp [defaultFields]
  have h2 : ("topic_name" ∈ defaultFields) = True := by simp [defaultFields]
  have h3 : ("summaries" ∈ defaultFields) = True := by simp [defaultFields]
  have h4 : ("related_topics" ∈ defaultFields) = True := by simp [defaultFields]
  simp only [keywordScore, h1, h2, h3, h4, true_and, if_true, summaryMatches,
    relatedMatches, List.countP_eq_length_filter]

theorem keywordDetails_default_length (ql : String) (g : ChatGroup) (t : Topic) :
    (keywordDetails defaultFields ql g t).length =
      (if pyIn ql (pyLower g.group_name) then 1 else 0) +
      (if pyIn ql (pyLower t.topic_name) then 1 else 0) +
      t.summaries.countP (fun s => pyIn ql (pyLower s)) +
      t.related_topics.countP (fun s => pyIn ql (pyLower s)) := by
  have h1 : ("group_name" ∈ defaultFields) = True := by simp [defaultFields]
  have h2 : ("topic_name" ∈ defaultFields) = True := by simp [defaultFields]
  have h3 : ("summaries" ∈ defaultFields) = True := by simp [defaultFields]
  have h4 : ("related_topics" ∈ defaultFields) = True := by simp [defaultFields]
  simp only [keywordDetails, h1, h2, h3, h4, true_and, if_true, summaryMatches,
    relatedMatches, List.countP_eq_length_filter, List.length_append,
    List.length_map]
  by_cases hg : pyIn ql (pyLower g.group_name) <;>
    by_cases ht : pyIn ql (pyLower t.topic_name) <;>
      simp [hg, ht, Nat.add_assoc]

/-- C8.  For every dataset, query and group/topic filters, `keyword_search`
scores each filter-passing topic as +3 for a group-name match, +3 for a
topic-name match, +2 per matching summary and +2 per matching related-topic
name, with one `match_details` entry per contributing match; exactly the
topics with positive score are returned, unbounded in number, sorted by
descending score with ties keeping encounter order. -/
theorem keyword_search_spec (data : List ChatGroup) (query : String)
    (gf tf : Option String) :
    (∀ r : KeywordResult, r ∈ keyword_search data query defaultFields gf tf ↔
      ∃ g ∈ data, passGroupFilter gf g = true ∧
        ∃ t ∈ g.topics, passTopicFilter tf t = true ∧
          0 < keywordScore defaultFields (pyLower query) g t ∧
          r = mkKeywordResult g t (keywordScore defaultFields (pyLower query) g t)
                (keywordDetails defaultFields (pyLower query) g t)) ∧
    (∀ g t, keywordScore defaultFields (pyLower query) g t =
        (if pyIn (pyLower query) (pyLower g.group_name) then 3 else 0) +
        (if pyIn (pyLower query) (pyLower t.topic_name) then 3 else 0) +
        2 * t.summaries.countP (fun s => pyIn (pyLower query) (pyLower s)) +
        2 * t.related_topics.countP (fun s => pyIn (pyLower query) (pyLower s)) ∧
      (keywordDetails defaultFields (pyLower query) g t).length =
        (if pyIn (pyLower query) (pyLower g.group_name) then 1 else 0) +
        (if pyIn (pyLower query) (pyLower t.topic_name) then 1 else 0) +
        t.summaries.countP (fun s => pyIn (pyLower query) (pyLower s)) +
        t.related_topics.countP (fun s => pyIn (pyLower query) (pyLower s))) ∧
    (keyword_search data query defaultFields gf tf).length =
      (keywordCandidates data query defaultFields gf tf).length ∧
    (keyword_search data query defaultFields gf tf).Pairwise
      (fun a b => b.search_score ≤ a.search_score) ∧
    (∀ k : Nat, (keyword_search data query defaultFields gf tf).filter
        (fun r => decide (r.search_score = k)) =
      (keywordCandidates data query defaultFields gf tf).filter
        (fun r => decide (r.search_score = k))) := by
  refine ⟨?_, ?_, ?_, ?_, ?_⟩
  · intro r
    rw [keyword_search, pySortDesc_mem]
    exact keywordCandidates_mem data query defaultFields gf tf r
  · intro g t
    exact ⟨keywordScore_default (pyLower query) g t,
      keywordDetails_default_length (pyLower query) g t⟩
  · exact pySortDesc_length _ _
  · exact pySortDesc_sorted _ _
  · intro k
    exact pySortDesc_filter_key (fun r : KeywordResult => r.search_score) _ k

/- ### Lemmas about the empty query -/

theorem pyIn_empty (s : String) : pyIn "" s = true := by
  simp [pyIn, List.nil_infix]

theorem pyLower_empty : pyLower "" = "" := rfl

theorem keywordScore_empty_query (g : ChatGroup) (t : Topic) :
    6 ≤ keywordScore defaultFields (pyLower "") g t := by
  rw [pyLower_empty, keywordScore_default]
  simp only [pyIn_empty, if_true]
  omega

theorem keywordCandidates_empty_query_length (data : List ChatGroup) :
    (keywordCandidates data "" defaultFields none none).length =
      (data.map (fun g => g.topics.length)).sum := by
  induction data with
  | nil => rfl
  | cons g gs ih =>
    have hfilter : (g :: gs).filter (passGroupFilter none) =
        g :: gs.filter (passGroupFilter none) := by
      simp [List.filter_cons, passGroupFilter]
    have hstep : ∀ ts : List Topic,
        (ts.filterMap (fun t =>
          if 0 < keywordScore defaultFields (pyLower "") g t then
            some (mkKeywordResult g t (keywordScore defaultFields (pyLower "") g t)
              (keywordDetails defaultFields (pyLower "") g t))
          else none)).length = ts.length := by
      intro ts
      induction ts with
      | nil => rfl
      | cons t ts iht =>
        have hpos : 0 < keywordScore defaultFields (pyLower "") g t :=
          lt_of_lt_of_le (by norm_num) (keywordScore_empty_query g t)
        simp [List.filterMap_cons, if_pos hpos, iht]
    simp only [keywordCandidates] at ih ⊢
    rw [hfilter]
    simp only [List.flatMap_cons, List.length_append, List.map_cons, List.sum_cons, ih]
    have : (g.topics.filter (passTopicFilter none)) = g.topics := by
      simp [List.filter_eq_self, passTopicFilter]
    rw [this, hstep g.topics]

/-- C10.  With the empty query (no filters, default fields), `keyword_search`
returns every topic of every group — the empty string is a substring of every
name, so every topic scores at least 3 + 3 = 6 and is kept. -/
theorem keyword_search_empty_query (data : List ChatGroup) :
    (keyword_search data "" defaultFields none none).length =
      (data.map (fun g => g.topics.length)).sum ∧
    ∀ g ∈ data, ∀ t ∈ g.topics,
      ∃ r ∈ keyword_search data "" defaultFields none none,
        r.topic_id = t.topic_id ∧ r.topic_name = t.topic_name ∧
        r.group_id = g.group_id ∧ 6 ≤ r.search_score := by
  constructor
  · rw [keyword_search, pySortDesc_length]
    exact keywordCandidates_empty_query_length data
  · intro g hg t ht
    refine ⟨mkKeywordResult g t (keywordScore defaultFields (pyLower "") g t)
      (keywordDetails defaultFields (pyLower "") g t), ?_, rfl, rfl, rfl,
      keywordScore_empty_query g t⟩
    rw [keyword_search, pySortDesc_mem, keywordCandidates_mem]
    exact ⟨g, hg, rfl, t, ht, rfl,
      lt_of_lt_of_le (by norm_num) (keywordScore_empty_query g t), rfl⟩

/- ### Lemmas about the per-group AI result cap -/

theorem groupKeys_aux (rs : List AIResult) :
    ∀ (acc : List String) (x : String),
      x ∈ rs.foldl (fun acc r => if r.topic_info.group_id ∈ acc then acc
        else acc ++ [r.topic_info.group_id]) acc ↔
      x ∈ acc ∨ ∃ r ∈ rs, r.topic_info.group_id = x := by
  induction rs with
  | nil => intro acc x; simp
  | cons r rs ih =>
    intro acc x
    rw [List.foldl_cons, ih]
    by_cases h : r.topic_info.group_id ∈ acc
    · rw [if_pos h]
      constructor
      · rintro (hx | ⟨r', hr', he⟩)
        · exact Or.inl hx
        · exact Or.inr ⟨r', List.mem_cons_of_mem r hr', he⟩
      · rintro (hx | ⟨r', hr', he⟩)
        · exact Or.inl hx
        · rcases List.mem_cons.mp hr' with rfl | hr''
          · exact Or.inl (he ▸ h)
          · exact Or.inr ⟨r', hr'', he⟩
    · rw [if_neg h]
      simp only [List.mem_append, List.mem_singleton]
      constructor
      · rintro ((hx | hx) | ⟨r', hr', he⟩)
        · exact Or.inl hx
        · exact Or.inr ⟨r, List.mem_cons_self r rs, hx.symm⟩
        · exact Or.inr ⟨r', List.mem_cons_of_mem r hr', he⟩
      · rintro (hx | ⟨r', hr', he⟩)
        · exact Or.inl (Or.inl hx)
        · rcases List.mem_cons.mp hr' with rfl | hr''
          · exact Or.inl (Or.inr he.symm)
          · exact Or.inr ⟨r', hr'', he⟩

theorem groupKeys_mem (rs : List AIResult) (x : String) :
    x ∈ groupKeys rs ↔ ∃ r ∈ rs, r.topic_info.group_id = x := by
  rw [groupKeys, groupKeys_aux]
  simp

theorem groupKeys_nodup (rs : List AIResult) : (groupKeys rs).Nodup := by
  have aux : ∀ (acc : List String), acc.Nodup →
      (rs.foldl (fun acc r => if r.topic_info.group_id ∈ acc then acc
        else acc ++ [r.topic_info.group_id]) acc).Nodup := by
    induction rs with
    | nil => intro acc h; exact h
    | cons r rs ih =>
      intro acc h
      rw [List.foldl_cons]
      by_cases hmem : r.topic_info.group_id ∈ acc
      · rw [if_pos hmem]; exact ih acc h
      · rw [if_neg hmem]
        refine ih _ ?_
        simp [List.nodup_append, h, hmem]
  exact aux [] (by simp)

theorem mem_block_gid (rs : List AIResult) (g' : String) (r : AIResult)
    (h : r ∈ (pySortDesc (fun r => r.confidence)
      (rs.filter (fun r => r.topic_info.group_id = g'))).take 3) :
    r.topic_info.group_id = g' := by
  have h1 := List.mem_of_mem_take h
  rw [pySortDesc_mem] at h1
  have h2 := (List.mem_filter.mp h1).2
  exact of_decide_eq_true h2

theorem filter_flatMap_blocks (keys : List String) (f : String → List AIResult)
    (hf : ∀ g' r, r ∈ f g' → r.topic_info.group_id = g') (g : String)
    (hnd : keys.Nodup) :
    (keys.flatMap f).filter (fun r => r.topic_info.group_id = g) =
      if g ∈ keys then f g else [] := by
  induction keys with
  | nil => simp
  | cons k ks ih =>
    obtain ⟨hk1, hk2⟩ := List.nodup_cons.mp hnd
    rw [List.flatMap_cons, List.filter_append, ih hk2]
    by_cases hk : k = g
    · subst hk
      have h1 : (f k).filter (fun r => r.topic_info.group_id = k) = f k :=
        List.filter_eq_self.mpr (fun r hr => by simp [hf k r hr])
      rw [h1, if_neg hk1, if_pos (List.mem_cons_self k ks)]
      simp
    · have h1 : (f k).filter (fun r => r.topic_info.group_id = g) = [] := by
        rw [List.filter_eq_nil_iff]
        intro r hr
        simp [hf k r hr, hk]
      rw [h1]
      by_cases hg : g ∈ ks
      · simp [hg, List.mem_cons]
      · have hng : g ∉ k :: ks := by
          intro hcon
          rcases List.mem_cons.mp hcon with rfl | hcon'
          · exact hk rfl
          · exact hg hcon'
        simp [hg, hng]

theorem limitPerGroupStage_filter (rs : List AIResult) (g : String) :
    (limitPerGroupStage rs).filter (fun r => r.topic_info.group_id = g) =
      (pySortDesc (fun r => r.confidence)
        (rs.filter (fun r => r.topic_info.group_id = g))).take 3 := by
  rw [limitPerGroupStage,
    filter_flatMap_blocks _ _ (fun g' r hr => mem_block_gid rs g' r hr) g
      (groupKeys_nodup rs)]
  by_cases hg : g ∈ groupKeys rs
  · rw [if_pos hg]
  · rw [if_neg hg]
    have hnone : rs.filter (fun r => r.topic_info.group_id = g) = [] := by
      rw [List.filter_eq_nil_iff]
      intro r hr hcon
      exact hg ((groupKeys_mem rs g).mpr ⟨r, hr, of_decide_eq_true hcon⟩)
    rw [hnone]
    rfl

theorem limitPerGroupStage_subset (rs : List AIResult) (r : AIResult)
    (h : r ∈ limitPerGroupStage rs) : r ∈ rs := by
  rw [limitPerGroupStage, List.mem_flatMap] at h
  obtain ⟨g, _, hr⟩ := h
  have h1 := List.mem_of_mem_take hr
  rw [pySortDesc_mem] at h1
  exact (List.mem_filter.mp h1).1

/-- C9.  The per-group limiting of AI results keeps, per `group_id`, exactly
the top 3 (or fewer) candidates of that group by descending confidence, and
the final output is the survivors sorted globally by descending confidence and
truncated to at most `maxResults` entries, hence at most 3 per group. -/
theorem limit_results_per_group_spec (rs : List AIResult) (maxResults : Nat) :
    (limit_results_per_group rs maxResults).length ≤ maxResults ∧
    (limit_results_per_group rs maxResults).Pairwise
      (fun a b => b.confidence ≤ a.confidence) ∧
    (∀ g : String, ((limit_results_per_group rs maxResults).filter
        (fun r => r.topic_info.group_id = g)).length ≤ 3) ∧
    (∀ g : String, (limitPerGroupStage rs).filter
        (fun r => r.topic_info.group_id = g) =
      (pySortDesc (fun r => r.confidence)
        (rs.filter (fun r => r.topic_info.group_id = g))).take 3) ∧
    (∀ g : String, ∀ x ∈ (limitPerGroupStage rs).filter
        (fun r => r.topic_info.group_id = g),
      ∀ y ∈ (pySortDesc (fun r => r.confidence)
        (rs.filter (fun r => r.topic_info.group_id = g))).drop 3,
        y.confidence ≤ x.confidence) ∧
    limit_results_per_group rs maxResults =
      (pySortDesc (fun r => r.confidence) (limitPerGroupStage rs)).take maxResults := by
  refine ⟨?_, ?_, ?_, limitPerGroupStage_filter rs, ?_, rfl⟩
  · exact List.length_take_le maxResults _
  · exact (pySortDesc_sorted _ _).sublist (List.take_sublist _ _)
  · intro g
    have h1 : ((limit_results_per_group rs maxResults).filter
        (fun r => r.topic_info.group_id = g)).length ≤
        ((pySortDesc (fun r => r.confidence) (limitPerGroupStage rs)).filter
          (fun r => r.topic_info.group_id = g)).length :=
      ((List.take_sublist _ _).filter _).length_le
    have h2 : ((pySortDesc (fun r => r.confidence) (limitPerGroupStage rs)).filter
        (fun r => r.topic_info.group_id = g)).length =
        ((limitPerGroupStage rs).filter (fun r => r.topic_info.group_id = g)).length :=
      ((pySortDesc_perm (fun r => r.confidence) (limitPerGroupStage rs)).filter _).length_eq
    have h3 := limitPerGroupStage_filter rs g
    calc ((limit_results_per_group rs maxResults).filter
        (fun r => r.topic_info.group_id = g)).length
        ≤ _ := h1
      _ = _ := h2
      _ ≤ 3 := by rw [h3]; exact List.length_take_le 3 _
  · intro g x hx y hy
    rw [limitPerGroupStage_filter rs g] at hx
    have hsorted := pySortDesc_sorted (fun r : AIResult => r.confidence)
      (rs.filter (fun r => r.topic_info.group_id = g))
    rw [← List.take_append_drop 3 (pySortDesc (fun r => r.confidence)
      (rs.filter (fun r => r.topic_info.group_id = g)))] at hsorted
    exact (List.pairwise_append.mp hsorted).2.2 x hx y hy

/- ### Lemmas about the combined search's AI phase -/

theorem findSome?_exists {A B : Type} (f : A → Option B) (l : List A) (b : B)
    (h : l.findSome? f = some b) : ∃ a ∈ l, f a = some b := by
  induction l with
  | nil => simp [List.findSome?] at h
  | cons x xs ih =>
    cases hfx : f x with
    | some b' =>
      rw [List.findSome?_cons, hfx] at h
      simp only [] at h
      exact ⟨x, List.mem_cons_self x xs, by rw [hfx, h]⟩
    | none =>
      rw [List.findSome?_cons, hfx] at h
      simp only [] at h
      obtain ⟨a, ha, hfa⟩ := ih h
      exact ⟨a, List.mem_cons_of_mem x ha, hfa⟩

theorem find_topic_by_id_some (data : List ChatGroup) (tid : String)
    (gf tf : Option String) (ti : TopicInfo)
    (h : find_topic_by_id data tid gf tf = some ti) :
    ∃ g ∈ data, passGroupFilter gf g = true ∧
      ∃ t ∈ g.topics, passTopicFilter tf t = true ∧
        t.topic_id = tid ∧ ti.topic_id = tid := by
  obtain ⟨p, hp, hfp⟩ := findSome?_exists _ _ _ h
  by_cases hid : p.2.topic_id = tid
  · rw [if_pos hid] at hfp
    rw [List.mem_flatMap] at hp
    obtain ⟨g, hg, hmem⟩ := hp
    rw [List.mem_map] at hmem
    obtain ⟨t, ht, heq⟩ := hmem
    have hgf := List.mem_filter.mp hg
    have htf := List.mem_filter.mp ht
    subst heq
    refine ⟨g, hgf.1, hgf.2, t, htf.1, htf.2, hid, ?_⟩
    rw [← Option.some_inj.mp hfp]
    exact hid
  · rw [if_neg hid] at hfp
    exact absurd hfp Option.noConfusion

theorem limit_results_subset (rs : List AIResult) (maxResults : Nat) (r : AIResult)
    (h : r ∈ limit_results_per_group rs maxResults) : r ∈ rs :=
  limitPerGroupStage_subset rs r
    ((pySortDesc_mem _ _ r).mp (List.mem_of_mem_take h))

theorem ai_search_member (data : List ChatGroup) (parsed : Option AIParsed)
    (maxResults : Nat) (gf tf : Option String) (r : AIResult)
    (h : r ∈ ai_semantic_search_single data parsed maxResults gf tf) :
    ∃ g ∈ data, passGroupFilter gf g = true ∧
      ∃ t ∈ g.topics, passTopicFilter tf t = true ∧
        t.topic_id = r.topic_info.topic_id := by
  cases parsed with
  | none => exact absurd h (List.not_mem_nil r)
  | some p =>
    have h1 := limit_results_subset _ _ _ h
    rw [List.mem_filterMap] at h1
    obtain ⟨tid, _, hmap⟩ := h1
    cases hfind : find_topic_by_id data tid gf tf with
    | none => rw [hfind] at hmap; exact absurd hmap Option.noConfusion
    | some ti =>
      rw [hfind] at hmap
      obtain ⟨g, hg, hgf, t, ht, htf, htid, htiid⟩ :=
        find_topic_by_id_some data tid gf tf ti hfind
      have hr : r.topic_info = ti := by
        rw [← Option.some_inj.mp hmap]
      exact ⟨g, hg, hgf, t, ht, htf, by rw [hr, htiid, htid]⟩

/-- C3 (amended).  The combined `search` with `useAi` and a non-blank query
invokes the AI phase with the same data and filters and no exclusion of the
keyword results' topic ids (no `excludeTopicIds` parameter exists), so every
AI recommendation is simply a filter-passing topic of the full pool — a topic
id present in `keywordResults` may therefore also appear in
`aiRecommendations`. -/
theorem search_ai_no_exclusion (data : List ChatGroup) (query : String)
    (aiMax : Nat) (gf tf : Option String) (parsed : Option AIParsed)
    (h : (pyStrip query).isEmpty = false) :
    (searchCombined data query true aiMax gf tf parsed).ai_recommendations =
      ai_semantic_search_single data parsed aiMax gf tf ∧
    (searchCombined data query true aiMax gf tf parsed).keyword_results =
      keyword_search data query defaultFields gf tf ∧
    ∀ r ∈ (searchCombined data query true aiMax gf tf parsed).ai_recommendations,
      ∃ g ∈ data, passGroupFilter gf g = true ∧
        ∃ t ∈ g.topics, passTopicFilter tf t = true ∧
          t.topic_id = r.topic_info.topic_id := by
  have hai : (searchCombined data query true aiMax gf tf parsed).ai_recommendations =
      ai_semantic_search_single data parsed aiMax gf tf := by
    simp [searchCombined, h]
  refine ⟨hai, rfl, ?_⟩
  intro r hr
  rw [hai] at hr
  exact ai_search_member data parsed aiMax gf tf r hr

/-- C3 counterexample: with query `部署` the keyword phase returns
`topic_001_01`, and the AI phase — invoked without any exclusion — returns the
same topic id, contradicting the claim that no keyword-result id reappears in
`aiRecommendations`. -/
theorem search_duplicates_keyword_in_ai :
    ((searchCombined [groupDeploy] "部署" true 10 none none
      (some parsedDeploy)).keyword_results.map (fun r => r.topic_id) =
        ["topic_001_01"]) ∧
    ((searchCombined [groupDeploy] "部署" true 10 none none
      (some parsedDeploy)).ai_recommendations.map (fun r => r.topic_info.topic_id) =
        ["topic_001_01"]) := by
  exact ⟨rfl, rfl⟩

/- ### Lemmas about the brace-span extraction -/

theorem dropWhile_append_of_all {α : Type} {p : α → Bool} (l₁ l₂ : List α)
    (h : ∀ c ∈ l₁, p c = true) : (l₁ ++ l₂).dropWhile p = l₂.dropWhile p := by
  induction l₁ with
  | nil => rfl
  | cons c cs ih =>
    rw [List.cons_append, List.dropWhile_cons, if_pos (h c (List.mem_cons_self c cs))]
    exact ih (fun c' hc' => h c' (List.mem_cons_of_mem c hc'))

theorem getLast?_split {α : Type} (l : List α) (a : α) (h : l.getLast? = some a) :
    ∃ l', l = l' ++ [a] := by
  induction l with
  | nil => exact absurd h Option.noConfusion
  | cons x xs ih =>
    cases xs with
    | nil =>
      rw [List.getLast?_singleton] at h
      exact ⟨[], by rw [Option.some_inj.mp h]; rfl⟩
    | cons y ys =>
      rw [List.getLast?_cons_cons] at h
      obtain ⟨l', hl'⟩ := ih h
      exact ⟨x :: l', by rw [List.cons_append, ← hl']⟩

theorem extractBrace_of_wrapped (A d B : List Char)
    (hA : ∀ c ∈ A, c ≠ '\x7b' ∧ c ≠ '\x7d')
    (hB : ∀ c ∈ B, c ≠ '\x7b' ∧ c ≠ '\x7d')
    (hd1 : d.head? = some '\x7b') (hd2 : d.getLast? = some '\x7d') :
    extractBrace (A ++ d ++ B) = some d := by
  obtain ⟨d₀, rfl⟩ := getLast?_split d '\x7d' hd2
  have hd₀ : ∃ m, d₀ = '\x7b' :: m := by
    cases d₀ with
    | nil =>
      exfalso
      rw [List.nil_append, List.head?_cons] at hd1
      exact absurd (Option.some_inj.mp hd1) (by decide)
    | cons c m =>
      rw [List.cons_append, List.head?_cons] at hd1
      exact ⟨m, by rw [Option.some_inj.mp hd1]⟩
  obtain ⟨m, rfl⟩ := hd₀
  rw [extractBrace]
  have hrev : (A ++ ('\x7b' :: m ++ ['\x7d']) ++ B).reverse =
      B.reverse ++ '\x7d' :: (('\x7b' :: m).reverse ++ A.reverse) := by
    simp [List.reverse_append]
  rw [hrev]
  have hdropB : (B.reverse ++ '\x7d' :: (('\x7b' :: m).reverse ++ A.reverse)).dropWhile
      (fun c => c ≠ '\x7d') = '\x7d' :: (('\x7b' :: m).reverse ++ A.reverse) := by
    rw [dropWhile_append_of_all _ _
      (fun c hc => by simp [(hB c (List.mem_reverse.mp hc)).2])]
    rw [List.dropWhile_cons, if_neg (by simp)]
  rw [hdropB]
  have hrev2 : ('\x7d' :: (('\x7b' :: m).reverse ++ A.reverse)).reverse =
      A ++ ('\x7b' :: m ++ ['\x7d']) := by
    simp [List.reverse_cons, List.reverse_append]
  rw [hrev2]
  have hdropA : (A ++ ('\x7b' :: m ++ ['\x7d'])).dropWhile (fun c => c ≠ '\x7b') =
      '\x7b' :: m ++ ['\x7d'] := by
    rw [dropWhile_append_of_all _ _ (fun c hc => by simp [(hA c hc).1])]
    rw [List.cons_append, List.dropWhile_cons, if_neg (by simp)]
  rw [hdropA]
  rfl

theorem extractBraceStr_plain (s : String)
    (h1 : s.data.head? = some '\x7b') (h2 : s.data.getLast? = some '\x7d') :
    extractBraceStr s = some s := by
  rw [extractBraceStr]
  have h := extractBrace_of_wrapped [] s.data [] (by simp) (by simp) h1 h2
  rw [List.nil_append, List.append_nil] at h
  rw [h]
  rfl

theorem extractBraceStr_fenced (s : String)
    (h1 : s.data.head? = some '\x7b') (h2 : s.data.getLast? = some '\x7d') :
    extractBraceStr ("```json\n" ++ s ++ "\n```") = some s := by
  rw [extractBraceStr]
  have hdata : ("```json\n" ++ s ++ "\n```").data =
      ("```json\n" : String).data ++ s.data ++ ("\n```" : String).data := by
    simp [String.data_append]
  rw [hdata]
  have h := extractBrace_of_wrapped ("```json\n" : String).data s.data
    ("\n```" : String).data (by decide) (by decide) h1 h2
  rw [h]
  rfl

/-- C4 (amended).  Both extractors locate the same greedy brace span, and a
fenced JSON object is recovered equal to the unwrapped one by both; but the
algorithms differ beyond the span step: the topic-extraction parser raises on
a span-less response — with a fixed message that does not embed the first 200
characters of the response — and retries after fence-stripping, while the
search parser raises nothing, has no retry, and yields an empty contribution
on any failure. -/
theorem json_extraction_spec {J : Type} (jdecode : String → Option J)
    (s : String) (v : J)
    (h1 : s.data.head? = some '\x7b') (h2 : s.data.getLast? = some '\x7d')
    (h3 : jdecode s = some v) :
    parse_api_response jdecode ("```json\n" ++ s ++ "\n```") = .ok v ∧
    parse_api_response jdecode s = .ok v ∧
    searcher_extract_json jdecode ("```json\n" ++ s ++ "\n```") = some v ∧
    searcher_extract_json jdecode s = some v ∧
    (∀ t : String, extractBraceStr t = none →
      parse_api_response jdecode t = .error "API响应中没有找到有效的JSON格式" ∧
      searcher_extract_json jdecode t = none) := by
  refine ⟨?_, ?_, ?_, ?_, ?_⟩
  · rw [parse_api_response, extractBraceStr_fenced s h1 h2]
    simp [h3]
  · rw [parse_api_response, extractBraceStr_plain s h1 h2]
    simp [h3]
  · rw [searcher_extract_json, extractBraceStr_fenced s h1 h2]
    simp [h3]
  · rw [searcher_extract_json, extractBraceStr_plain s h1 h2]
    simp [h3]
  · intro t ht
    constructor
    · rw [parse_api_response, ht]
    · rw [searcher_extract_json, ht]

/-- C4 witness: the amended theorem applied to a concrete fenced object. -/
theorem json_extraction_spec_witness :
    ("\x7b\"k\": 1\x7d" : String).data.head? = some '\x7b' ∧
    ("\x7b\"k\": 1\x7d" : String).data.getLast? = some '\x7d' ∧
    jdecodeW "\x7b\"k\": 1\x7d" = some () ∧
    (parse_api_response jdecodeW ("```json\n" ++ "\x7b\"k\": 1\x7d" ++ "\n```") =
        .ok () ∧
      parse_api_response jdecodeW "\x7b\"k\": 1\x7d" = .ok () ∧
      searcher_extract_json jdecodeW ("```json\n" ++ "\x7b\"k\": 1\x7d" ++ "\n```") =
        some () ∧
      searcher_extract_json jdecodeW "\x7b\"k\": 1\x7d" = some () ∧
      (∀ t : String, extractBraceStr t = none →
        parse_api_response jdecodeW t = .error "API响应中没有找到有效的JSON格式" ∧
        searcher_extract_json jdecodeW t = none)) :=
  ⟨rfl, rfl, rfl, json_extraction_spec jdecodeW "\x7b\"k\": 1\x7d" () rfl rfl rfl⟩

/-- C4 counterexample: on a response with no brace span the two extractors
diverge — the topic-extraction parser raises a ParseFailure whose message does
not contain the first 200 characters of the response, while the search parser
raises nothing and signals failure as `none` (an empty contribution). -/
theorem parse_extraction_divergence :
    parse_api_response (fun _ => (none : Option Unit)) "hello world" =
      .error "API响应中没有找到有效的JSON格式" ∧
    pyIn (pyTake200 "hello world") "API响应中没有找到有效的JSON格式" = false ∧
    searcher_extract_json (fun _ => (none : Option Unit)) "hello world" = none :=
  ⟨rfl, by decide, rfl⟩

/- ### Lemmas about the decimal id format -/

theorem toDigitsLE_lt (fuel : Nat) : ∀ (n : Nat), ∀ d ∈ toDigitsLE fuel n, d < 10 := by
  induction fuel with
  | zero => intro n d hd; simp [toDigitsLE] at hd
  | succ f ih =>
    intro n d hd
    rw [toDigitsLE] at hd
    by_cases hn : n = 0
    · rw [if_pos hn] at hd; simp at hd
    · rw [if_neg hn] at hd
      rcases List.mem_cons.mp hd with rfl | hd'
      · exact Nat.mod_lt n (by norm_num)
      · exact ih (n / 10) d hd'

theorem valLE_toDigitsLE (fuel : Nat) : ∀ n : Nat, n ≤ fuel →
    valLE (toDigitsLE fuel n) = n := by
  induction fuel with
  | zero =>
    intro n hn
    rw [Nat.le_zero.mp hn]
    rfl
  | succ f ih =>
    intro n hn
    rw [toDigitsLE]
    by_cases hn0 : n = 0
    · rw [if_pos hn0, hn0]; rfl
    · rw [if_neg hn0]
      have hdiv : n / 10 ≤ f := by
        have := Nat.div_lt_self (Nat.pos_of_ne_zero hn0) (by norm_num : (1 : Nat) < 10)
        omega
      rw [valLE, ih (n / 10) hdiv]
      omega

theorem digitVal_digitChar (d : Nat) (hd : d < 10) : (digitChar d).toNat - 48 = d := by
  interval_cases d <;> rfl

theorem strValBE_rev_digits (L : List Nat) (hL : ∀ d ∈ L, d < 10) :
    strValBE (L.reverse.map digitChar) = valLE L := by
  induction L with
  | nil => rfl
  | cons d L ih =>
    have hrw : ((d :: L).reverse.map digitChar) =
        (L.reverse.map digitChar) ++ [digitChar d] := by
      simp
    rw [hrw, strValBE, List.foldl_append]
    have h1 : List.foldl (fun a c => 10 * a + (c.toNat - 48)) 0 (L.reverse.map digitChar) =
        valLE L := ih (fun d' hd' => hL d' (List.mem_cons_of_mem d hd'))
    rw [h1]
    show 10 * valLE L + ((digitChar d).toNat - 48) = valLE (d :: L)
    rw [digitVal_digitChar d (hL d (List.mem_cons_self d L)), valLE]
    omega

theorem strValBE_zeros_append (m : Nat) (xs : List Char) :
    strValBE (List.replicate m '0' ++ xs) = strValBE xs := by
  induction m with
  | zero => rfl
  | succ k ih =>
    rw [List.replicate_succ, List.cons_append]
    show List.foldl (fun a c => 10 * a + (c.toNat - 48)) (10 * 0 + ('0'.toNat - 48))
      (List.replicate k '0' ++ xs) = strValBE xs
    have : (10 * 0 + ('0'.toNat - 48)) = 0 := rfl
    rw [this]
    exact ih

theorem strValBE_natStr (n : Nat) : strValBE (natStr n).data = n := by
  show strValBE ((toDigitsLE n n).reverse.map digitChar) = n
  rw [strValBE_rev_digits (toDigitsLE n n) (toDigitsLE_lt n n),
    valLE_toDigitsLE n n (le_refl n)]

theorem strValBE_padNum (w n : Nat) : strValBE (padNum w n).data = n := by
  rw [padNum]
  by_cases hlen : (natStr n).length < w
  · rw [if_pos hlen]
    show strValBE ((String.mk (List.replicate (w - (natStr n).length) '0') ++
      natStr n).data) = n
    rw [String.data_append]
    show strValBE (List.replicate (w - (natStr n).length) '0' ++ (natStr n).data) = n
    rw [strValBE_zeros_append, strValBE_natStr]
  · rw [if_neg hlen]
    exact strValBE_natStr n

theorem padNum_inj (w : Nat) {m n : Nat} (h : padNum w m = padNum w n) : m = n := by
  have h2 := congrArg (fun s => strValBE s.data) h
  simpa [strValBE_padNum] using h2

theorem group_id_format_inj {m n : Nat} (h : group_id_format m = group_id_format n) :
    m = n := by
  rw [group_id_format, group_id_format] at h
  have hd := congrArg String.data h
  rw [String.data_append, String.data_append] at hd
  have hcancel := List.append_cancel_left hd
  have h2 := congrArg strValBE hcancel
  have hm := strValBE_padNum 3 m
  have hn := strValBE_padNum 3 n
  omega

theorem group_id_format_ne_empty (k : Nat) : group_id_format k ≠ "" := by
  intro h
  have hd := congrArg String.data h
  rw [group_id_format] at hd
  rw [String.data_append] at hd
  simp at hd

/- ### Lemmas about group creation and deletion -/

theorem updateFirstGroup_map_group_id (gs : List ChatGroup) (gid : String)
    (f : ChatGroup → ChatGroup) (hf : ∀ g, (f g).group_id = g.group_id) :
    (updateFirstGroup gs gid f).map (fun g => g.group_id) =
      gs.map (fun g => g.group_id) := by
  induction gs with
  | nil => rfl
  | cons g rest ih =>
    rw [updateFirstGroup]
    by_cases h : (g.group_id == gid) = true
    · rw [if_pos h, List.map_cons, List.map_cons, hf]
    · rw [if_neg h, List.map_cons, List.map_cons, ih]

theorem updateFirstGroup_length (gs : List ChatGroup) (gid : String)
    (f : ChatGroup → ChatGroup) :
    (updateFirstGroup gs gid f).length = gs.length := by
  induction gs with
  | nil => rfl
  | cons g rest ih =>
    rw [updateFirstGroup]
    by_cases h : (g.group_id == gid) = true
    · rw [if_pos h]; rfl
    · rw [if_neg h, List.length_cons, List.length_cons, ih]

theorem appendTopicsToGroup_group_id (g : ChatGroup) (nts : List Topic) :
    (appendTopicsToGroup g nts).group_id = g.group_id := rfl

theorem update_chat_structure_canonical (gs : List ChatGroup) (gn : String)
    (nts : List Topic) (d : String) (h : idsCanonical gs) :
    idsCanonical (update_chat_structure gs gn nts d) := by
  rw [update_chat_structure]
  cases hfind : gs.find? (fun g => g.group_name == gn) with
  | none =>
    simp only [Option.map_none', hfind]
    rw [idsCanonical,
      updateFirstGroup_map_group_id _ _ _ (fun g => appendTopicsToGroup_group_id g nts),
      updateFirstGroup_length, List.map_append, List.length_append]
    rw [idsCanonical] at h
    rw [h]
    simp [List.range_succ]
  | some g0 =>
    simp only [Option.map_some', hfind]
    have hg0 : g0 ∈ gs := List.mem_of_find?_eq_some hfind
    have hid : g0.group_id ∈ gs.map (fun g => g.group_id) :=
      List.mem_map_of_mem (fun g => g.group_id) hg0
    rw [idsCanonical] at h
    rw [h] at hid
    obtain ⟨i, _, hfmt⟩ := List.mem_map.mp hid
    have hne : ¬ (g0.group_id = "") := by
      rw [← hfmt]
      exact group_id_format_ne_empty (i + 1)
    rw [if_neg hne]
    rw [idsCanonical,
      updateFirstGroup_map_group_id _ _ _ (fun g => appendTopicsToGroup_group_id g nts),
      updateFirstGroup_length]
    exact h

/-- Creation-only sequences keep the canonical id shape. -/
theorem applyOps_canonical (ops : List StructOp) :
    ∀ gs : List ChatGroup, idsCanonical gs → (∀ op ∈ ops, isCreateOp op) →
      idsCanonical (applyOps gs ops) := by
  induction ops with
  | nil => intro gs hgs _; exact hgs
  | cons op ops' ih =>
    intro gs hgs hops
    rw [applyOps, List.foldl_cons]
    cases op with
    | create gn nts d =>
      exact ih (applyOp gs (.create gn nts d))
        (update_chat_structure_canonical gs gn nts d hgs)
        (fun o ho => hops o (List.mem_cons_of_mem _ ho))
    | delete gid =>
      exact absurd (hops (.delete gid) (List.mem_cons_self _ _)) (fun hfalse => hfalse)

/-- C2 (amended).  Group ids are pairwise distinct in every structure
reachable by group creations alone: each creation either reuses an existing
group or appends `group_{count+1:03d}`, keeping the ids exactly
`group_001 .. group_{n:03d}`.  After a deletion this fails: a later creation
derives its id from the shrunken count and can collide with a surviving
group. -/
theorem group_ids_distinct_without_delete (ops : List StructOp)
    (h : ∀ op ∈ ops, isCreateOp op) :
    ((applyOps [] ops).map (fun g => g.group_id)).Pairwise (fun a b => a ≠ b) := by
  have hres := applyOps_canonical ops [] rfl h
  rw [idsCanonical] at hres
  rw [hres]
  rw [List.pairwise_map]
  have hlt : (List.range (applyOps [] ops).length).Pairwise (· < ·) :=
    List.pairwise_lt_range _
  refine hlt.imp ?_
  intro i j hij heq
  have := group_id_format_inj heq
  omega

/-- C2 counterexample: create two groups, delete the first, create a third —
the new group's id `group_002` (derived from the current count 1 + 1) collides
with the surviving group's id. -/
theorem group_id_collision_after_delete :
    (applyOps [] [.create "a" [] "", .create "b" [] "", .delete "group_001",
        .create "c" [] ""]).map (fun g => g.group_id) =
      ["group_002", "group_002"] ∧
    ¬ ((applyOps [] [.create "a" [] "", .create "b" [] "", .delete "group_001",
        .create "c" [] ""]).map (fun g => g.group_id)).Pairwise
        (fun a b => a ≠ b) := by
  refine ⟨rfl, ?_⟩
  intro hpw
  have h1 : ("group_002" : String) ≠ "group_002" := by
    have := List.pairwise_cons.mp hpw
    exact this.1 "group_002" (List.mem_cons_self _ _)
  exact h1 rfl

/-- C2 witness: the distinctness theorem applied to a concrete creation-only
sequence. -/
theorem group_ids_distinct_witness :
    (∀ op ∈ [StructOp.create "a" [] "", StructOp.create "b" [] ""], isCreateOp op) ∧
    ((applyOps [] [StructOp.create "a" [] "", StructOp.create "b" [] ""]).map
      (fun g => g.group_id)).Pairwise (fun a b => a ≠ b) := by
  have hops : ∀ op ∈ [StructOp.create "a" [] "", StructOp.create "b" [] ""],
      isCreateOp op := by
    intro op hop
    rcases List.mem_cons.mp hop with rfl | hop'
    · trivial
    · rcases List.mem_cons.mp hop' with rfl | hop''
      · trivial
      · exact absurd hop'' (List.not_mem_nil op)
  exact ⟨hops, group_ids_distinct_without_delete _ hops⟩

/- ### Lemmas about interval validation -/

theorem foldl_except_error {A B : Type} (f : A → Except String B) (l : List A)
    (m : String) :
    l.foldl (fun (acc : Except String (List B)) x =>
        acc.bind (fun bs => (f x).map (fun b => bs ++ [b])))
      (Except.error m) = Except.error m := by
  induction l with
  | nil => rfl
  | cons x xs ih => rw [List.foldl_cons]; exact ih

theorem foldl_except_ok {A B : Type} (f : A → Except String B) (l : List A) :
    ∀ (acc res : List B),
      l.foldl (fun (acc : Except String (List B)) x =>
          acc.bind (fun bs => (f x).map (fun b => bs ++ [b])))
        (Except.ok acc) = Except.ok res →
      ∃ out : List B, res = acc ++ out ∧ out.length = l.length ∧
        (∀ b ∈ out, ∃ a ∈ l, f a = .ok b) ∧
        (∀ a ∈ l, ∃ b, f a = .ok b) := by
  induction l with
  | nil =>
    intro acc res h
    rw [List.foldl_nil] at h
    exact ⟨[], by simp [← Except.ok.inj h], rfl, by simp, by simp⟩
  | cons x xs ih =>
    intro acc res h
    rw [List.foldl_cons] at h
    cases hfx : f x with
    | error m =>
      rw [show ((Except.ok acc : Except String (List B)).bind
          (fun bs => (f x).map (fun b => bs ++ [b]))) = Except.error m by
        rw [hfx]; rfl] at h
      rw [foldl_except_error f xs m] at h
      exact absurd h (by simp)
    | ok b =>
      rw [show ((Except.ok acc : Except String (List B)).bind
          (fun bs => (f x).map (fun b => bs ++ [b]))) = Except.ok (acc ++ [b]) by
        rw [hfx]; rfl] at h
      obtain ⟨out', hres, hlen, hmem, hall⟩ := ih (acc ++ [b]) res h
      refine ⟨b :: out', by rw [hres]; simp, by simp [hlen], ?_, ?_⟩
      · intro b' hb'
        rcases List.mem_cons.mp hb' with rfl | hb''
        · exact ⟨x, List.mem_cons_self x xs, hfx⟩
        · obtain ⟨a, ha, hfa⟩ := hmem b' hb''
          exact ⟨a, List.mem_cons_of_mem x ha, hfa⟩
      · intro a ha
        rcases List.mem_cons.mp ha with rfl | ha'
        · exact ⟨b, hfx⟩
        · exact hall a ha'

theorem validateInterval_ok_inv (n : Nat) (iv : RawInterval) (p : Int × Int)
    (h : validateInterval n iv = .ok p) :
    ∃ s e : Int, iv = .ofList [some s, some e] ∧ p = (s, e) ∧
      1 ≤ s ∧ s ≤ e ∧ e ≤ (n : Int) := by
  unfold validateInterval at h
  split at h
  · exact absurd h (by simp)
  · split at h
    · exact absurd h (by simp)
    · split at h
      · split at h
        · exact absurd h (by simp)
        · split at h
          · exact absurd h (by simp)
          · rename_i s e hlen2 h1 h2
            push_neg at h1
            refine ⟨s, e, rfl, (Except.ok.inj h).symm, ?_, ?_, ?_⟩ <;> omega
      · exact absurd h (by simp)

theorem validateInterval_ok_not_bad (n : Nat) (iv : RawInterval) (p : Int × Int)
    (h : validateInterval n iv = .ok p) : ¬ badInterval n iv := by
  obtain ⟨s, e, rfl, _, hs, hse, hen⟩ := validateInterval_ok_inv n iv p h
  intro hbad
  rcases hbad with hlen | hnone | ⟨s', e', heq, hcond⟩
  · simp at hlen
  · simp at hnone
  · rw [List.cons.injEq, List.cons.injEq] at heq
    obtain ⟨hs', he', -⟩ := heq
    rw [Option.some_inj.mp hs'.symm] at hcond
    rw [Option.some_inj.mp he'.symm] at hcond
    omega

theorem validateTopicIntervals_ok_facts (n : Nat) (t : MTopic)
    (l : List (Int × Int)) (h : validateTopicIntervals n t = .ok l) :
    l ≠ [] ∧ (∀ p ∈ l, 1 ≤ p.1 ∧ p.1 ≤ p.2 ∧ p.2 ≤ (n : Int)) ∧
    (∀ iv ∈ t.record_intervals, ∃ p, validateInterval n iv = .ok p) := by
  rw [validateTopicIntervals] at h
  by_cases he : t.record_intervals.isEmpty
  · rw [if_pos he] at h
    exact absurd h (by simp)
  · rw [if_neg he] at h
    obtain ⟨out, hres, hlen, hmem, hall⟩ :=
      foldl_except_ok (validateInterval n) t.record_intervals [] l h
    rw [List.nil_append] at hres
    subst hres
    refine ⟨?_, ?_, hall⟩
    · intro hnil
      rw [hnil, List.length_nil] at hlen
      have hempty : t.record_intervals = [] := List.length_eq_zero.mp hlen.symm
      exact he (by rw [hempty]; rfl)
    · intro p hp
      obtain ⟨iv, _, hok⟩ := hmem p hp
      obtain ⟨s, e, _, rfl, hs, hse, hen⟩ := validateInterval_ok_inv n iv p hok
      exact ⟨hs, hse, hen⟩

theorem validateTopics_ok_facts (n : Nat) (ts : List MTopic)
    (ivss : List (List (Int × Int))) (h : validateTopics n ts = .ok ivss) :
    ivss.length = ts.length ∧
    (∀ t ∈ ts, ∃ l, validateTopicIntervals n t = .ok l) ∧
    (∀ ivs ∈ ivss, ∃ t ∈ ts, validateTopicIntervals n t = .ok ivs) := by
  rw [validateTopics] at h
  obtain ⟨out, hres, hlen, hmem, hall⟩ := foldl_except_ok (validateTopicIntervals n) ts [] ivss h
  rw [List.nil_append] at hres
  subst hres
  exact ⟨hlen, hall, hmem⟩

/-- C7.  Any model-returned interval that is not a 2-element integer pair, or
whose start is below 1, end above N, or start above end, makes validation
raise a ValidationError before any uncovered-index repair runs: the whole
`_validate_and_convert_intervals` call fails with the validation message, so
in particular [0,5], [3,2] and [1,N+1] are all rejected. -/
theorem interval_validation_rejects (n : Nat) (ts : List MTopic)
    (h : ∃ t ∈ ts, ∃ iv ∈ t.record_intervals, badInterval n iv) :
    ∃ msg, validateTopics n ts = .error msg ∧
      ∀ records : List String, records.length = n →
        validate_and_convert_intervals ts records = .error msg := by
  cases hv : validateTopics n ts with
  | ok ivss =>
    exfalso
    obtain ⟨t, ht, iv, hiv, hbad⟩ := h
    obtain ⟨-, hall, -⟩ := validateTopics_ok_facts n ts ivss hv
    obtain ⟨l, hl⟩ := hall t ht
    obtain ⟨-, -, hivs⟩ := validateTopicIntervals_ok_facts n t l hl
    obtain ⟨p, hp⟩ := hivs iv hiv
    exact validateInterval_ok_not_bad n iv p hp hbad
  | error m =>
    refine ⟨m, rfl, ?_⟩
    intro records hrec
    rw [validate_and_convert_intervals, hrec, hv]
    rfl

/- ### Lemmas about uncovered-index repair -/

theorem coversIdx_iff (ivs : List (Int × Int)) (i : Int) :
    coversIdx ivs i = true ↔ ∃ p ∈ ivs, p.1 ≤ i ∧ i ≤ p.2 := by
  simp [coversIdx, List.any_eq_true]

theorem coveredAny_iff (ivss : List (List (Int × Int))) (i : Int) :
    coveredAny ivss i = true ↔ ∃ ivs ∈ ivss, coversIdx ivs i = true := by
  simp [coveredAny, List.any_eq_true]

theorem getD_of_lt {α : Type} (l : List α) (k : Nat) (d : α) (h : k < l.length) :
    l.getD k d = l.get ⟨k, h⟩ := by
  simp [List.getD_eq_getElem?_getD, List.getElem?_eq_getElem h]

theorem coversIdx_updateIntervals_mono (old : List (Int × Int)) (idx i : Int)
    (pos : RepairPos) (h : coversIdx old i = true) :
    coversIdx (updateIntervals old idx pos) i = true := by
  rw [coversIdx_iff] at h
  obtain ⟨p, hp, hp1, hp2⟩ := h
  rw [coversIdx_iff]
  cases pos with
  | before =>
    rw [updateIntervals]
    cases old with
    | nil => exact absurd hp (List.not_mem_nil p)
    | cons q rest =>
      rw [updateIntervalsBefore]
      by_cases hq : q.1 = idx + 1
      · rw [if_pos hq]
        rcases List.mem_cons.mp hp with rfl | hp'
        · exact ⟨(idx, p.2), List.mem_cons_self _ _, by omega, hp2⟩
        · exact ⟨p, List.mem_cons_of_mem _ hp', hp1, hp2⟩
      · rw [if_neg hq]
        exact ⟨p, List.mem_cons_of_mem _ hp, hp1, hp2⟩
  | after =>
    rw [updateIntervals, updateIntervalsAfter]
    cases hlast : old.getLast? with
    | none =>
      rw [List.getLast?_eq_none_iff] at hlast
      rw [hlast] at hp
      exact absurd hp (List.not_mem_nil p)
    | some q =>
      obtain ⟨l', rfl⟩ := getLast?_split old q hlast
      dsimp only
      by_cases hq : q.2 = idx - 1
      · rw [if_pos hq, List.dropLast_concat]
        rcases List.mem_append.mp hp with hp' | hp'
        · exact ⟨p, List.mem_append_left _ hp', hp1, hp2⟩
        · have hpq := List.mem_singleton.mp hp'
          subst hpq
          exact ⟨(p.1, idx), List.mem_append_right _ (List.mem_singleton_self _),
            hp1, by omega⟩
      · rw [if_neg hq]
        exact ⟨p, List.mem_append_left _ hp, hp1, hp2⟩

theorem coversIdx_updateIntervals_self (old : List (Int × Int)) (idx : Int)
    (pos : RepairPos) (hgood : ∀ p ∈ old, p.1 ≤ p.2) :
    coversIdx (updateIntervals old idx pos) idx = true := by
  rw [coversIdx_iff]
  cases pos with
  | before =>
    rw [updateIntervals]
    cases old with
    | nil =>
      rw [updateIntervalsBefore]
      exact ⟨(idx, idx), List.mem_singleton_self _, le_refl idx, le_refl idx⟩
    | cons q rest =>
      rw [updateIntervalsBefore]
      by_cases hq : q.1 = idx + 1
      · rw [if_pos hq]
        have hq2 := hgood q (List.mem_cons_self q rest)
        exact ⟨(idx, q.2), List.mem_cons_self _ _, le_refl idx, by omega⟩
      · rw [if_neg hq]
        exact ⟨(idx, idx), List.mem_cons_self _ _, le_refl idx, le_refl idx⟩
  | after =>
    rw [updateIntervals, updateIntervalsAfter]
    cases hlast : old.getLast? with
    | none =>
      dsimp only
      exact ⟨(idx, idx), List.mem_singleton_self _, le_refl idx, le_refl idx⟩
    | some q =>
      obtain ⟨l', rfl⟩ := getLast?_split old q hlast
      dsimp only
      have hqmem : q ∈ l' ++ [q] := List.mem_append_right _ (List.mem_singleton_self _)
      have hq2 := hgood q hqmem
      by_cases hq : q.2 = idx - 1
      · rw [if_pos hq, List.dropLast_concat]
        exact ⟨(q.1, idx), List.mem_append_right _ (List.mem_singleton_self _),
          by omega, le_refl idx⟩
      · rw [if_neg hq]
        exact ⟨(idx, idx), List.mem_append_right _ (List.mem_singleton_self _),
          le_refl idx, le_refl idx⟩

theorem updateIntervals_good (old : List (Int × Int)) (idx : Int) (pos : RepairPos)
    (n : Int) (hgood : ∀ p ∈ old, 1 ≤ p.1 ∧ p.1 ≤ p.2 ∧ p.2 ≤ n)
    (hidx1 : 1 ≤ idx) (hidx2 : idx ≤ n) :
    ∀ p ∈ updateIntervals old idx pos, 1 ≤ p.1 ∧ p.1 ≤ p.2 ∧ p.2 ≤ n := by
  intro p hp
  cases pos with
  | before =>
    rw [updateIntervals] at hp
    cases old with
    | nil =>
      rw [updateIntervalsBefore] at hp
      rw [List.mem_singleton.mp hp]
      exact ⟨hidx1, le_refl idx, hidx2⟩
    | cons q rest =>
      rw [updateIntervalsBefore] at hp
      by_cases hq : q.1 = idx + 1
      · rw [if_pos hq] at hp
        rcases List.mem_cons.mp hp with rfl | hp'
        · have hq2 := hgood q (List.mem_cons_self q rest)
          exact ⟨hidx1, by omega, by omega⟩
        · exact hgood p (List.mem_cons_of_mem q hp')
      · rw [if_neg hq] at hp
        rcases List.mem_cons.mp hp with rfl | hp'
        · exact ⟨hidx1, le_refl idx, hidx2⟩
        · exact hgood p hp'
  | after =>
    rw [updateIntervals, updateIntervalsAfter] at hp
    cases hlast : old.getLast? with
    | none =>
      rw [hlast] at hp
      dsimp only at hp
      rw [List.mem_singleton.mp hp]
      exact ⟨hidx1, le_refl idx, hidx2⟩
    | some q =>
      rw [hlast] at hp
      dsimp only at hp
      obtain ⟨l', rfl⟩ := getLast?_split old q hlast
      have hqmem : q ∈ l' ++ [q] := List.mem_append_right _ (List.mem_singleton_self _)
      have hq2 := hgood q hqmem
      by_cases hq : q.2 = idx - 1
      · rw [if_pos hq, List.dropLast_concat] at hp
        rcases List.mem_append.mp hp with hp' | hp'
        · exact hgood p (List.mem_append_left _ hp')
        · rw [List.mem_singleton.mp hp']
          exact ⟨hq2.1, by omega, hidx2⟩
      · rw [if_neg hq] at hp
        rcases List.mem_append.mp hp with hp' | hp'
        · exact hgood p hp'
        · rw [List.mem_singleton.mp hp']
          exact ⟨hidx1, le_refl idx, hidx2⟩

theorem scanStep_bestIdx (idx : Int) (ti : Nat) (st : BestSt) (p : Int × Int) :
    (scanStep idx ti st p).bestIdx = ti ∨ (scanStep idx ti st p).bestIdx = st.bestIdx := by
  rw [scanStep]
  split_ifs <;> simp

theorem scanBest_bestIdx_lt (ivss : List (List (Int × Int))) (idx : Int)
    (h : ivss ≠ []) : (scanBest ivss idx).bestIdx < ivss.length := by
  have hinner : ∀ (ps : List (Int × Int)) (ti : Nat) (st : BestSt),
      st.bestIdx < ivss.length → ti < ivss.length →
      (ps.foldl (scanStep idx ti) st).bestIdx < ivss.length := by
    intro ps
    induction ps with
    | nil => intro ti st hst _; exact hst
    | cons p ps ih =>
      intro ti st hst hti
      rw [List.foldl_cons]
      refine ih ti _ ?_ hti
      rcases scanStep_bestIdx idx ti st p with heq | heq
      · rw [heq]; exact hti
      · rw [heq]; exact hst
  have houter : ∀ (l : List (Nat × List (Int × Int))) (st : BestSt),
      st.bestIdx < ivss.length → (∀ pr ∈ l, pr.1 < ivss.length) →
      (l.foldl (fun st pair => pair.2.foldl (scanStep idx pair.1) st) st).bestIdx <
        ivss.length := by
    intro l
    induction l with
    | nil => intro st hst _; exact hst
    | cons pr l ih =>
      intro st hst hl
      rw [List.foldl_cons]
      exact ih _ (hinner pr.2 pr.1 st hst (hl pr (List.mem_cons_self pr l)))
        (fun q hq => hl q (List.mem_cons_of_mem pr hq))
  rw [scanBest]
  refine houter _ _ ?_ ?_
  · exact List.length_pos.mpr h
  · intro pr hpr
    rw [List.enum_eq_zip_range] at hpr
    have := (List.of_mem_zip hpr).1
    exact List.mem_range.mp this

theorem assignOne_length (ivss : List (List (Int × Int))) (idx : Int) :
    (assignOne ivss idx).length = ivss.length := by
  rw [assignOne]
  exact List.length_set ivss _ _

theorem coveredAny_assignOne_mono (ivss : List (List (Int × Int))) (idx i : Int)
    (h : coveredAny ivss i = true) : coveredAny (assignOne ivss idx) i = true := by
  rw [coveredAny_iff] at h
  obtain ⟨ivs, hmem, hcov⟩ := h
  obtain ⟨j, hj, hget⟩ := List.mem_iff_getElem.mp hmem
  rw [coveredAny_iff, assignOne]
  by_cases hjk : j = (scanBest ivss idx).bestIdx
  · refine ⟨updateIntervals (ivss.getD (scanBest ivss idx).bestIdx []) idx
      (scanBest ivss idx).bestPos, ?_, ?_⟩
    · refine List.mem_iff_getElem.mpr ⟨(scanBest ivss idx).bestIdx, ?_, ?_⟩
      · rw [List.length_set, ← hjk]; exact hj
      · exact List.getElem_set_self _
    · have hgd : ivss.getD (scanBest ivss idx).bestIdx [] = ivs := by
        rw [← hjk, getD_of_lt ivss j [] hj, List.get_eq_getElem, hget]
      rw [hgd]
      exact coversIdx_updateIntervals_mono ivs idx i _ hcov
  · refine ⟨ivs, ?_, hcov⟩
    refine List.mem_iff_getElem.mpr ⟨j, ?_, ?_⟩
    · rw [List.length_set]; exact hj
    · rw [List.getElem_set_ne (fun hne => hjk hne.symm)]
      exact hget

theorem assignOne_covers_self (ivss : List (List (Int × Int))) (idx : Int)
    (hne : ivss ≠ []) (hgood : ∀ ivs ∈ ivss, ∀ p ∈ ivs, p.1 ≤ p.2) :
    coveredAny (assignOne ivss idx) idx = true := by
  have hk := scanBest_bestIdx_lt ivss idx hne
  rw [coveredAny_iff, assignOne]
  refine ⟨updateIntervals (ivss.getD (scanBest ivss idx).bestIdx []) idx
    (scanBest ivss idx).bestPos, ?_, ?_⟩
  · refine List.mem_iff_getElem.mpr ⟨(scanBest ivss idx).bestIdx, ?_, ?_⟩
    · rw [List.length_set]; exact hk
    · exact List.getElem_set_self _
  · refine coversIdx_updateIntervals_self _ idx _ ?_
    intro p hp
    rw [getD_of_lt ivss _ [] hk] at hp
    exact hgood _ (List.get_mem ivss _ hk) p hp

theorem assignOne_good (ivss : List (List (Int × Int))) (idx : Int) (n : Int)
    (hgood : GoodAll n ivss) (hidx1 : 1 ≤ idx) (hidx2 : idx ≤ n) :
    GoodAll n (assignOne ivss idx) := by
  intro ivs hmem p hp
  rw [assignOne] at hmem
  rcases List.mem_or_eq_of_mem_set hmem with hold | hnew
  · exact hgood ivs hold p hp
  · subst hnew
    by_cases hk : (scanBest ivss idx).bestIdx < ivss.length
    · refine updateIntervals_good _ idx _ n ?_ hidx1 hidx2 p hp
      intro q hq
      rw [getD_of_lt ivss _ [] hk] at hq
      exact hgood _ (List.get_mem ivss _ hk) q hq
    · refine updateIntervals_good _ idx _ n ?_ hidx1 hidx2 p hp
      intro q hq
      rw [List.getD_eq_getElem?_getD, List.getElem?_eq_none (le_of_not_lt hk)] at hq
      exact absurd hq (List.not_mem_nil q)

theorem assignFold_props (n : Int) (uncov : List Int) :
    ∀ ivss : List (List (Int × Int)), ivss ≠ [] → GoodAll n ivss →
      (∀ j ∈ uncov, 1 ≤ j ∧ j ≤ n) →
      (uncov.foldl assignOne ivss).length = ivss.length ∧
      GoodAll n (uncov.foldl assignOne ivss) ∧
      (∀ i, coveredAny ivss i = true → coveredAny (uncov.foldl assignOne ivss) i = true) ∧
      (∀ j ∈ uncov, coveredAny (uncov.foldl assignOne ivss) j = true) := by
  induction uncov with
  | nil =>
    intro ivss hne hgood _
    exact ⟨rfl, hgood, fun i hi => hi, by simp⟩
  | cons j rest ih =>
    intro ivss hne hgood hbound
    rw [List.foldl_cons]
    have hjb := hbound j (List.mem_cons_self j rest)
    have hne' : assignOne ivss j ≠ [] := by
      intro hcon
      have := assignOne_length ivss j
      rw [hcon] at this
      exact hne (List.length_eq_zero.mp this.symm)
    have hgood' : GoodAll n (assignOne ivss j) :=
      assignOne_good ivss j n hgood hjb.1 hjb.2
    have hbound' : ∀ i ∈ rest, 1 ≤ i ∧ i ≤ n :=
      fun i hi => hbound i (List.mem_cons_of_mem j hi)
    obtain ⟨hlen, hg, hmono, hcov⟩ := ih (assignOne ivss j) hne' hgood' hbound'
    refine ⟨by rw [hlen, assignOne_length], hg, ?_, ?_⟩
    · intro i hi
      exact hmono i (coveredAny_assignOne_mono ivss j i hi)
    · intro i hi
      rcases List.mem_cons.mp hi with rfl | hi'
      · refine hmono i ?_
        refine assignOne_covers_self ivss i hne ?_
        intro ivs hivs p hp
        exact (hgood ivs hivs p hp).2.1
      · exact hcov i hi'

theorem uncoveredList_bounds (ivss : List (List (Int × Int))) (n : Nat) (j : Int)
    (h : j ∈ uncoveredList ivss n) : 1 ≤ j ∧ j ≤ (n : Int) := by
  rw [uncoveredList, List.mem_filter] at h
  obtain ⟨hmem, -⟩ := h
  obtain ⟨k, hk, hkeq⟩ := List.mem_map.mp hmem
  rw [List.mem_range] at hk
  have hkeq' : (k : Int) + 1 = j := hkeq
  omega

theorem mem_uncoveredList_of_not_covered (ivss : List (List (Int × Int))) (n : Nat)
    (k : Nat) (hk : k < n) (hcov : coveredAny ivss (Int.ofNat k + 1) = false) :
    (Int.ofNat k + 1) ∈ uncoveredList ivss n := by
  rw [uncoveredList, List.mem_filter]
  refine ⟨List.mem_map.mpr ⟨k, List.mem_range.mpr hk, rfl⟩, ?_⟩
  simp only [Bool.not_eq_true']
  exact hcov

theorem mem_sliceRecords (records : List String) (p : Int × Int) (j : Nat)
    (hj : j < records.length) (h1 : 1 ≤ p.1) (h2 : p.1 ≤ (j : Int) + 1)
    (h3 : (j : Int) + 1 ≤ p.2) (h4 : p.2 ≤ (records.length : Int)) :
    records.get ⟨j, hj⟩ ∈ sliceRecords records p := by
  rw [sliceRecords]
  have ha : ((p.1 - 1).toNat : Int) = p.1 - 1 := Int.toNat_of_nonneg (by omega)
  have hb : ((p.2 - (p.1 - 1)).toNat : Int) = p.2 - (p.1 - 1) :=
    Int.toNat_of_nonneg (by omega)
  have haj : (p.1 - 1).toNat ≤ j := by omega
  have hmb : j - (p.1 - 1).toNat < (p.2 - (p.1 - 1)).toNat := by omega
  have hdl : j - (p.1 - 1).toNat < (records.drop (p.1 - 1).toNat).length := by
    rw [List.length_drop]
    omega
  refine List.mem_iff_getElem.mpr ⟨j - (p.1 - 1).toNat, ?_, ?_⟩
  · rw [List.length_take]
    exact lt_min hmb hdl
  · rw [List.getElem_take, List.getElem_drop, List.get_eq_getElem]
    show records.get ⟨(p.1 - 1).toNat + (j - (p.1 - 1).toNat), _⟩ = records.get ⟨j, hj⟩
    have hidx : (p.1 - 1).toNat + (j - (p.1 - 1).toNat) = j := by omega
    exact congrArg records.get (Fin.ext hidx)

/-- C1 (amended).  When validation succeeds and the model returned at least
one topic, the uncovered-index repair makes every record index 1..N covered by
some interval of some topic, and hence every record line appears in at least
one topic's `related_records`.  (With zero returned topics validation passes
vacuously but the repair returns without assigning anything.) -/
theorem interval_coverage_after_repair (ts : List MTopic) (records : List String)
    (hts : ts ≠ []) (vts : List VTopic)
    (h : validate_and_convert_intervals ts records = .ok vts) :
    ∀ j : Nat, ∀ hj : j < records.length,
      ∃ vt ∈ vts, (∃ p ∈ vt.record_intervals,
          p.1 ≤ (j : Int) + 1 ∧ (j : Int) + 1 ≤ p.2) ∧
        records.get ⟨j, hj⟩ ∈ vt.related_records := by
  intro j hj
  rw [validate_and_convert_intervals] at h
  cases hv : validateTopics records.length ts with
  | error m =>
    rw [hv] at h
    exact absurd h (by simp [Except.map])
  | ok ivss =>
    rw [hv] at h
    simp only [Except.map] at h
    have hvts := (Except.ok.inj h).symm
    obtain ⟨hlen, -, hmem⟩ := validateTopics_ok_facts records.length ts ivss hv
    have hgood : GoodAll ((records.length : Nat) : Int) ivss := by
      intro ivs hivs p hp
      obtain ⟨t, -, hok⟩ := hmem ivs hivs
      exact (validateTopicIntervals_ok_facts records.length t ivs hok).2.1 p hp
    have hne : ivss ≠ [] := by
      intro hcon
      rw [hcon] at hlen
      exact hts (List.length_eq_zero.mp hlen.symm)
    have hassign : assign_uncovered_records ivss
        (uncoveredList ivss records.length) =
        (uncoveredList ivss records.length).foldl assignOne ivss := by
      rw [assign_uncovered_records, if_neg]
      intro hcon
      exact hne (List.isEmpty_iff.mp hcon)
    have hbounds : ∀ i ∈ uncoveredList ivss records.length,
        1 ≤ i ∧ i ≤ ((records.length : Nat) : Int) :=
      fun i hi => uncoveredList_bounds ivss records.length i hi
    obtain ⟨hflen, hfgood, hfmono, hfcov⟩ :=
      assignFold_props ((records.length : Nat) : Int)
        (uncoveredList ivss records.length) ivss hne hgood hbounds
    have hcovered : coveredAny ((uncoveredList ivss records.length).foldl
        assignOne ivss) ((j : Int) + 1) = true := by
      by_cases hc : coveredAny ivss ((j : Int) + 1) = true
      · exact hfmono _ hc
      · have hc' : coveredAny ivss (Int.ofNat j + 1) = false :=
          Bool.eq_false_iff.mpr hc
        exact hfcov _ (mem_uncoveredList_of_not_covered ivss records.length j hj hc')
    rw [coveredAny_iff] at hcovered
    obtain ⟨ivs, hivs, hcov⟩ := hcovered
    obtain ⟨k, hk, hget⟩ := List.mem_iff_getElem.mp hivs
    rw [coversIdx_iff] at hcov
    obtain ⟨p, hp, hp1, hp2⟩ := hcov
    have hkz : k < (ts.zip ((uncoveredList ivss records.length).foldl
        assignOne ivss)).length := by
      rw [List.length_zip]
      have h1 : k < ((uncoveredList ivss records.length).foldl assignOne ivss).length := hk
      omega
    rw [hvts, hassign]
    refine ⟨_, List.mem_map_of_mem _ (List.get_mem _ k hkz), ?_, ?_⟩
    · have hsnd : ((ts.zip ((uncoveredList ivss records.length).foldl
          assignOne ivss)).get ⟨k, hkz⟩).2 = ivs := by
        rw [List.get_eq_getElem, List.getElem_zip]
        exact hget
      rw [hsnd]
      exact ⟨p, hp, hp1, hp2⟩
    · have hsnd : ((ts.zip ((uncoveredList ivss records.length).foldl
          assignOne ivss)).get ⟨k, hkz⟩).2 = ivs := by
        rw [List.get_eq_getElem, List.getElem_zip]
        exact hget
      rw [hsnd]
      have hgp := hfgood ivs hivs p hp
      rw [convertRecords, List.mem_flatMap]
      exact ⟨p, hp, mem_sliceRecords records p j hj hgp.1 hp1 hp2 hgp.2.2⟩

/-- C1 counterexample: with a 1-record transcript and a model response
containing zero topics, validation passes (there are no intervals to reject),
the repair returns without assigning anything, and the record belongs to no
topic's `related_records`. -/
theorem interval_coverage_counterexample :
    validate_and_convert_intervals ([] : List MTopic) ["aaaa"] = .ok [] ∧
    ¬ ∃ vt : VTopic, vt ∈ ([] : List VTopic) ∧ "aaaa" ∈ vt.related_records := by
  refine ⟨rfl, ?_⟩
  rintro ⟨vt, hvt, -⟩
  exact List.not_mem_nil vt hvt

/-- C1 witness: the coverage theorem applied to a concrete under-covering
model response on a 2-record transcript. -/
theorem interval_coverage_witness :
    ([topicSparseW] ≠ ([] : List MTopic)) ∧
    validate_and_convert_intervals [topicSparseW] ["aaaa", "bbbb"] =
      .ok [vtopicRepairedW] ∧
    (∀ j : Nat, ∀ hj : j < (["aaaa", "bbbb"] : List String).length,
      ∃ vt ∈ [vtopicRepairedW], (∃ p ∈ vt.record_intervals,
          p.1 ≤ (j : Int) + 1 ∧ (j : Int) + 1 ≤ p.2) ∧
        (["aaaa", "bbbb"] : List String).get ⟨j, hj⟩ ∈ vt.related_records) :=
  ⟨by simp, rfl, interval_coverage_after_repair [topicSparseW] ["aaaa", "bbbb"]
    (by simp) [vtopicRepairedW] rfl⟩

/-- C7 witness: the rejection theorem applied to the interval [0,5] on a
5-record transcript. -/
theorem interval_validation_rejects_witness :
    (∃ t ∈ [badTopicW], ∃ iv ∈ t.record_intervals, badInterval 5 iv) ∧
    (∃ msg, validateTopics 5 [badTopicW] = .error msg ∧
      ∀ records : List String, records.length = 5 →
        validate_and_convert_intervals [badTopicW] records = .error msg) := by
  have hbad : ∃ t ∈ [badTopicW], ∃ iv ∈ t.record_intervals, badInterval 5 iv := by
    refine ⟨badTopicW, List.mem_singleton_self _,
      RawInterval.ofList [some 0, some 5], by simp [badTopicW], ?_⟩
    exact Or.inr (Or.inr ⟨0, 5, rfl, Or.inl (by norm_num)⟩)
  exact ⟨hbad, interval_validation_rejects 5 [badTopicW] hbad⟩

/-- C5 (amended).  Only the directed-edge variant (graph.py) falls back to an
empty `chat_groups` list on a missing file or malformed JSON; the canonical
bidirectional variant (graphs.py) that the dashboard constructs loads the
two-group sample content on a missing file and lets the JSON decode error
propagate on malformed content. -/
theorem graph_load_fallback :
    graph_load_from_json .missing = [] ∧
    graph_load_from_json .malformed = [] ∧
    (∀ gs : List ChatGroup, graph_load_from_json (.valid gs) = gs) ∧
    graphs_load_from_json .missing = .ok defaultChatGroups ∧
    (∃ m : String, graphs_load_from_json .malformed = .error m) ∧
    (∀ gs : List ChatGroup, graphs_load_from_json (.valid gs) = .ok gs) :=
  ⟨rfl, rfl, fun _ => rfl, rfl, ⟨"json.JSONDecodeError", rfl⟩, fun _ => rfl⟩

/-- C5 counterexample: the canonical graph's constructor does not yield empty
`chat_groups` on a missing backing file (it loads the two sample groups), and
does not complete normally on malformed JSON (the decode error propagates). -/
theorem graph_bootstrap_counterexample :
    graphs_load_from_json .missing = .ok defaultChatGroups ∧
    defaultChatGroups.length = 2 ∧
    defaultChatGroups ≠ [] ∧
    graphs_load_from_json .malformed = .error "json.JSONDecodeError" :=
  ⟨rfl, rfl, by decide, rfl⟩

/-- C3 witness: the amended theorem applied at the same concrete search. -/
theorem search_ai_no_exclusion_witness :
    (pyStrip "部署").isEmpty = false ∧
    ((searchCombined [groupDeploy] "部署" true 10 none none
        (some parsedDeploy)).ai_recommendations =
      ai_semantic_search_single [groupDeploy] (some parsedDeploy) 10 none none ∧
    (searchCombined [groupDeploy] "部署" true 10 none none
        (some parsedDeploy)).keyword_results =
      keyword_search [groupDeploy] "部署" defaultFields none none ∧
    ∀ r ∈ (searchCombined [groupDeploy] "部署" true 10 none none
        (some parsedDeploy)).ai_recommendations,
      ∃ g ∈ [groupDeploy], passGroupFilter none g = true ∧
        ∃ t ∈ g.topics, passTopicFilter none t = true ∧
          t.topic_id = r.topic_info.topic_id) :=
  ⟨rfl, search_ai_no_exclusion [groupDeploy] "部署" 10 none none
    (some parsedDeploy) rfl⟩

/- ### Lemmas about the graph dictionaries -/

theorem find?_key_cons {α : Type} (p : String × α) (d : List (String × α))
    (k : String) :
    List.find? (fun q => q.1 == k) (p :: d) =
      if (p.1 == k) = true then some p else List.find? (fun q => q.1 == k) d := by
  by_cases h : (p.1 == k) = true
  · rw [if_pos h]
    exact List.find?_cons_of_pos _ h
  · rw [if_neg h]
    exact List.find?_cons_of_neg _ h

theorem dictGet?_map_replace {α : Type} (d : List (String × α)) (k : String) (v : α) :
    dictGet? (d.map (fun p => if p.1 == k then (k, v) else p)) k =
      if (d.find? (fun p => p.1 == k)).isSome then some v else none := by
  induction d with
  | nil => rfl
  | cons p d ih =>
    rw [List.map_cons]
    by_cases hp : (p.1 == k) = true
    · rw [if_pos hp, dictGet?, find?_key_cons, if_pos (by simp), find?_key_cons,
        if_pos hp]
      simp
    · rw [if_neg hp, dictGet?, find?_key_cons, if_neg hp, find?_key_cons, if_neg hp]
      exact ih

theorem dictGet?_append_single {α : Type} (d : List (String × α)) (k : String) (v : α)
    (h : d.find? (fun p => p.1 == k) = none) :
    dictGet? (d ++ [(k, v)]) k = some v := by
  rw [dictGet?, List.find?_append, h]
  simp

theorem dictGet?_dictSet_self {α : Type} (d : List (String × α)) (k : String) (v : α) :
    dictGet? (dictSet d k v) k = some v := by
  rw [dictSet]
  by_cases h : (d.find? (fun p => p.1 == k)).isSome
  · rw [if_pos h, dictGet?_map_replace, if_pos h]
  · rw [if_neg h]
    exact dictGet?_append_single d k v (Option.not_isSome_iff_eq_none.mp h)

theorem find?_map_replace_ne {α : Type} (d : List (String × α)) (k k' : String)
    (v : α) (h : k' ≠ k) :
    List.find? (fun q => q.1 == k')
        (d.map (fun p => if p.1 == k then (k, v) else p)) =
      List.find? (fun q => q.1 == k') d := by
  induction d with
  | nil => rfl
  | cons p d ih =>
    rw [List.map_cons]
    by_cases hp : (p.1 == k) = true
    · rw [if_pos hp]
      have hpk : p.1 = k := eq_of_beq hp
      have h1 : (((k, v) : String × α).1 == k') = false :=
        beq_eq_false_iff_ne.mpr (Ne.symm h)
      have h2 : (p.1 == k') = false := by
        rw [hpk]
        exact beq_eq_false_iff_ne.mpr (Ne.symm h)
      rw [find?_key_cons, if_neg (by rw [h1]; simp), find?_key_cons,
        if_neg (by rw [h2]; simp)]
      exact ih
    · rw [if_neg hp]
      by_cases hq : (p.1 == k') = true
      · rw [find?_key_cons, if_pos hq, find?_key_cons, if_pos hq]
      · rw [find?_key_cons, if_neg hq, find?_key_cons, if_neg hq]
        exact ih

theorem dictGet?_dictSet_ne {α : Type} (d : List (String × α)) (k : String) (v : α)
    (k' : String) (h : k' ≠ k) :
    dictGet? (dictSet d k v) k' = dictGet? d k' := by
  rw [dictSet]
  by_cases hf : (d.find? (fun p => p.1 == k)).isSome
  · rw [if_pos hf, dictGet?, dictGet?, find?_map_replace_ne d k k' v h]
  · rw [if_neg hf, dictGet?, dictGet?, List.find?_append]
    cases hd : List.find? (fun p => p.1 == k') d with
    | some q => simp
    | none =>
      have hne : ((( k, v) : String × α).1 == k') = false :=
        beq_eq_false_iff_ne.mpr (Ne.symm h)
      have hsingle : List.find? (fun p => p.1 == k') [((k, v) : String × α)] = none := by
        rw [find?_key_cons]
        rw [if_neg (by rw [hne]; simp)]
        rfl
      rw [hsingle]
      simp

theorem dictGet?_dictSet_cases {α : Type} (d : List (String × α)) (k : String) (v : α)
    (k' : String) (r : α) (h : dictGet? (dictSet d k v) k' = some r) :
    r = v ∨ dictGet? d k' = some r := by
  by_cases hk : k' = k
  · subst hk
    rw [dictGet?_dictSet_self] at h
    exact Or.inl (Option.some_inj.mp h).symm
  · rw [dictGet?_dictSet_ne d k v k' hk] at h
    exact Or.inr h

theorem isSome_dictGet?_dictSet {α : Type} (d : List (String × α)) (k : String) (v : α)
    (k' : String) (h : (dictGet? d k').isSome = true) :
    (dictGet? (dictSet d k v) k').isSome = true := by
  by_cases hk : k' = k
  · subst hk
    rw [dictGet?_dictSet_self]
    rfl
  · rw [dictGet?_dictSet_ne d k v k' hk]
    exact h

theorem lkup_graphAppend_mono (g : List (String × List String)) (k w k' v' : String)
    (h : v' ∈ lkup g k') : v' ∈ lkup (graphAppendIfAbsent g k w) k' := by
  rw [graphAppendIfAbsent]
  cases hg : dictGet? g k with
  | none => exact h
  | some ns =>
    dsimp only
    by_cases hw : w ∈ ns
    · rw [if_pos hw]; exact h
    · rw [if_neg hw]
      by_cases hk : k' = k
      · subst hk
        rw [lkup, dictGet?_dictSet_self, Option.getD_some]
        rw [lkup, hg, Option.getD_some] at h
        exact List.mem_append_left _ h
      · rw [lkup, dictGet?_dictSet_ne _ _ _ _ hk]
        exact h

theorem lkup_graphAppend_self (g : List (String × List String)) (k w : String)
    (ns : List String) (hg : dictGet? g k = some ns) :
    w ∈ lkup (graphAppendIfAbsent g k w) k := by
  rw [graphAppendIfAbsent, hg]
  dsimp only
  by_cases hw : w ∈ ns
  · rw [if_pos hw, lkup, hg, Option.getD_some]
    exact hw
  · rw [if_neg hw, lkup, dictGet?_dictSet_self, Option.getD_some]
    exact List.mem_append_right _ (List.mem_singleton_self w)

theorem isSome_graphAppend (g : List (String × List String)) (k w k' : String) :
    (dictGet? (graphAppendIfAbsent g k w) k').isSome = (dictGet? g k').isSome := by
  rw [graphAppendIfAbsent]
  cases hg : dictGet? g k with
  | none => rfl
  | some ns =>
    dsimp only
    by_cases hw : w ∈ ns
    · rw [if_pos hw]
    · rw [if_neg hw]
      by_cases hk : k' = k
      · subst hk
        rw [dictGet?_dictSet_self, hg]
        rfl
      · rw [dictGet?_dictSet_ne _ _ _ _ hk]

theorem selfFree_graphAppend (g : List (String × List String)) (k w : String)
    (hself : ∀ x, x ∉ lkup g x) (hne : w ≠ k) :
    ∀ x, x ∉ lkup (graphAppendIfAbsent g k w) x := by
  intro x
  rw [graphAppendIfAbsent]
  cases hg : dictGet? g k with
  | none => exact hself x
  | some ns =>
    dsimp only
    by_cases hw : w ∈ ns
    · rw [if_pos hw]; exact hself x
    · rw [if_neg hw]
      by_cases hk : x = k
      · subst hk
        rw [lkup, dictGet?_dictSet_self, Option.getD_some]
        intro hmem
        rcases List.mem_append.mp hmem with h1 | h1
        · exact hself x (by rw [lkup, hg, Option.getD_some]; exact h1)
        · exact hne (List.mem_singleton.mp h1).symm
      · rw [lkup, dictGet?_dictSet_ne _ _ _ _ hk]
        exact hself x

theorem nbr_graphAppend (g : List (String × List String)) (k w : String)
    (P : String → Prop) (hP : ∀ x v, v ∈ lkup g x → P v) (hw : P w) :
    ∀ x v, v ∈ lkup (graphAppendIfAbsent g k w) x → P v := by
  intro x v hmem
  rw [graphAppendIfAbsent] at hmem
  cases hg : dictGet? g k with
  | none =>
    rw [hg] at hmem
    exact hP x v hmem
  | some ns =>
    rw [hg] at hmem
    dsimp only at hmem
    by_cases hwn : w ∈ ns
    · rw [if_pos hwn] at hmem; exact hP x v hmem
    · rw [if_neg hwn] at hmem
      by_cases hk : x = k
      · subst hk
        rw [lkup, dictGet?_dictSet_self, Option.getD_some] at hmem
        rcases List.mem_append.mp hmem with h1 | h1
        · exact hP x v (by rw [lkup, hg, Option.getD_some]; exact h1)
        · rw [List.mem_singleton.mp h1]; exact hw
      · rw [lkup, dictGet?_dictSet_ne _ _ _ _ hk] at hmem
        exact hP x v hmem

theorem lkup_linkPair_mono (g : List (String × List String)) (tid rid k' v' : String)
    (h : v' ∈ lkup g k') : v' ∈ lkup (linkPair g tid rid) k' :=
  lkup_graphAppend_mono _ _ _ _ _ (lkup_graphAppend_mono _ _ _ _ _ h)

theorem isSome_linkPair (g : List (String × List String)) (tid rid k' : String) :
    (dictGet? (linkPair g tid rid) k').isSome = (dictGet? g k').isSome := by
  rw [linkPair, isSome_graphAppend, isSome_graphAppend]

theorem linkPair_establish (g : List (String × List String)) (tid rid : String)
    (hti : (dictGet? g tid).isSome = true) (hri : (dictGet? g rid).isSome = true) :
    rid ∈ lkup (linkPair g tid rid) tid ∧ tid ∈ lkup (linkPair g tid rid) rid := by
  obtain ⟨ns, hns⟩ := Option.isSome_iff_exists.mp hti
  constructor
  · exact lkup_graphAppend_mono _ _ _ _ _ (lkup_graphAppend_self g tid rid ns hns)
  · have hri2 : (dictGet? (graphAppendIfAbsent g tid rid) rid).isSome = true := by
      rw [isSome_graphAppend]; exact hri
    obtain ⟨ms, hms⟩ := Option.isSome_iff_exists.mp hri2
    exact lkup_graphAppend_self _ rid tid ms hms

theorem selfFree_linkPair (g : List (String × List String)) (tid rid : String)
    (hself : ∀ x, x ∉ lkup g x) (hne : rid ≠ tid) :
    ∀ x, x ∉ lkup (linkPair g tid rid) x :=
  selfFree_graphAppend _ _ _ (selfFree_graphAppend _ _ _ hself hne) (Ne.symm hne)

theorem nbr_linkPair (g : List (String × List String)) (tid rid : String)
    (P : String → Prop) (hP : ∀ x v, v ∈ lkup g x → P v) (htid : P tid) (hrid : P rid) :
    ∀ x v, v ∈ lkup (linkPair g tid rid) x → P v :=
  nbr_graphAppend _ _ _ P (nbr_graphAppend _ _ _ P hP hrid) htid

theorem lkup_linkStep_mono (nameToId : List (String × String)) (tid : String)
    (gg : List (String × List String)) (nm k' v' : String)
    (h : v' ∈ lkup gg k') : v' ∈ lkup (linkStep nameToId tid gg nm) k' := by
  rw [linkStep]
  cases dictGet? nameToId nm with
  | none => exact h
  | some rid =>
    dsimp only
    by_cases hr : rid = "" ∨ rid = tid
    · rw [if_pos hr]; exact h
    · rw [if_neg hr]; exact lkup_linkPair_mono _ _ _ _ _ h

theorem isSome_linkStep (nameToId : List (String × String)) (tid : String)
    (gg : List (String × List String)) (nm k' : String) :
    (dictGet? (linkStep nameToId tid gg nm) k').isSome = (dictGet? gg k').isSome := by
  rw [linkStep]
  cases dictGet? nameToId nm with
  | none => rfl
  | some rid =>
    dsimp only
    by_cases hr : rid = "" ∨ rid = tid
    · rw [if_pos hr]
    · rw [if_neg hr, isSome_linkPair]

theorem lkup_linkFold_mono (nameToId : List (String × String)) (tid : String)
    (nms : List String) (gg : List (String × List String)) (k' v' : String)
    (h : v' ∈ lkup gg k') : v' ∈ lkup (nms.foldl (linkStep nameToId tid) gg) k' := by
  induction nms generalizing gg with
  | nil => exact h
  | cons nm rest ih =>
    rw [List.foldl_cons]
    exact ih _ (lkup_linkStep_mono _ _ _ _ _ _ h)

theorem isSome_linkFold (nameToId : List (String × String)) (tid : String)
    (nms : List String) (gg : List (String × List String)) (k' : String) :
    (dictGet? (nms.foldl (linkStep nameToId tid) gg) k').isSome =
      (dictGet? gg k').isSome := by
  induction nms generalizing gg with
  | nil => rfl
  | cons nm rest ih =>
    rw [List.foldl_cons, ih, isSome_linkStep]

theorem linkFold_establish (nameToId : List (String × String)) (tid : String)
    (nms : List String) (gg : List (String × List String)) (nm rid : String)
    (hmem : nm ∈ nms) (hres : dictGet? nameToId nm = some rid)
    (hne1 : rid ≠ "") (hne2 : rid ≠ tid)
    (hti : (dictGet? gg tid).isSome = true) (hri : (dictGet? gg rid).isSome = true) :
    rid ∈ lkup (nms.foldl (linkStep nameToId tid) gg) tid ∧
      tid ∈ lkup (nms.foldl (linkStep nameToId tid) gg) rid := by
  induction nms generalizing gg with
  | nil => cases hmem
  | cons a rest ih =>
    rw [List.foldl_cons]
    by_cases ha : nm = a
    · subst ha
      have hstep : linkStep nameToId tid gg nm = linkPair gg tid rid := by
        rw [linkStep, hres]
        dsimp only
        rw [if_neg (by push_neg; exact ⟨hne1, hne2⟩)]
      rw [hstep]
      have h2 := linkPair_establish gg tid rid hti hri
      exact ⟨lkup_linkFold_mono _ _ _ _ _ _ h2.1, lkup_linkFold_mono _ _ _ _ _ _ h2.2⟩
    · have hmem' : nm ∈ rest := by
        rcases List.mem_cons.mp hmem with h1 | h1
        · exact absurd h1 ha
        · exact h1
      refine ih _ hmem' ?_ ?_
      · rw [isSome_linkStep]; exact hti
      · rw [isSome_linkStep]; exact hri

theorem buildNameToId_aux (ts : List Topic) (d : List (String × String)) (nm rid : String)
    (h : dictGet? (ts.foldl (fun d t => dictSet d t.topic_name t.topic_id) d) nm =
      some rid) :
    (∃ t ∈ ts, t.topic_id = rid) ∨ dictGet? d nm = some rid := by
  induction ts generalizing d with
  | nil => exact Or.inr h
  | cons t rest ih =>
    rw [List.foldl_cons] at h
    rcases ih _ h with h1 | h1
    · obtain ⟨t', ht', hid⟩ := h1
      exact Or.inl ⟨t', List.mem_cons_of_mem _ ht', hid⟩
    · rcases dictGet?_dictSet_cases _ _ _ _ _ h1 with h2 | h2
      · exact Or.inl ⟨t, List.mem_cons_self _ _, h2.symm⟩
      · exact Or.inr h2

theorem buildNameToId_values (ts : List Topic) (nm rid : String)
    (h : dictGet? (buildNameToId ts) nm = some rid) : ∃ t ∈ ts, t.topic_id = rid := by
  rcases buildNameToId_aux ts [] nm rid h with h1 | h1
  · exact h1
  · simp [dictGet?] at h1

theorem buildGraphInit_aux (ts : List Topic) (d : List (String × List String)) (k : String)
    (h : (dictGet? d k).isSome = true ∨ ∃ t ∈ ts, t.topic_id = k) :
    (dictGet? (ts.foldl (fun d t => dictSet d t.topic_id []) d) k).isSome = true := by
  induction ts generalizing d with
  | nil =>
    rcases h with h | ⟨t, ht, _⟩
    · exact h
    · cases ht
  | cons t rest ih =>
    rw [List.foldl_cons]
    apply ih
    rcases h with h | ⟨t', ht', hk⟩
    · exact Or.inl (isSome_dictGet?_dictSet _ _ _ _ h)
    · rcases List.mem_cons.mp ht' with h2 | h2
      · subst h2
        subst hk
        exact Or.inl (by rw [dictGet?_dictSet_self]; rfl)
      · exact Or.inr ⟨t', h2, hk⟩

theorem buildGraphInit_isSome (ts : List Topic) (t : Topic) (ht : t ∈ ts) :
    (dictGet? (buildGraphInit ts) t.topic_id).isSome = true :=
  buildGraphInit_aux ts [] t.topic_id (Or.inr ⟨t, ht, rfl⟩)

theorem lkup_pass2_mono (nameToId : List (String × String)) (ts : List Topic)
    (g : List (String × List String)) (k' v' : String) (h : v' ∈ lkup g k') :
    v' ∈ lkup (ts.foldl (fun gg t => linkTopic nameToId gg t) g) k' := by
  induction ts generalizing g with
  | nil => exact h
  | cons t rest ih =>
    rw [List.foldl_cons]
    exact ih _ (lkup_linkFold_mono _ _ _ _ _ _ h)

theorem pass2_establish (nameToId : List (String × String)) (ts : List Topic)
    (t : Topic) (nm rid : String)
    (hnm : nm ∈ t.related_topics) (hres : dictGet? nameToId nm = some rid)
    (hne1 : rid ≠ "") (hne2 : rid ≠ t.topic_id) :
    ∀ g : List (String × List String), t ∈ ts →
    (dictGet? g t.topic_id).isSome = true → (dictGet? g rid).isSome = true →
    rid ∈ lkup (ts.foldl (fun gg u => linkTopic nameToId gg u) g) t.topic_id ∧
      t.topic_id ∈ lkup (ts.foldl (fun gg u => linkTopic nameToId gg u) g) rid := by
  induction ts with
  | nil =>
    intro g ht _ _
    cases ht
  | cons a rest ih =>
    intro g ht hti hri
    rw [List.foldl_cons]
    rcases List.mem_cons.mp ht with h1 | h1
    · subst h1
      have h2 := linkFold_establish nameToId t.topic_id t.related_topics g nm rid
        hnm hres hne1 hne2 hti hri
      exact ⟨lkup_pass2_mono _ rest _ _ _ h2.1, lkup_pass2_mono _ rest _ _ _ h2.2⟩
    · refine ih (linkTopic nameToId g a) h1 ?_ ?_
      · rw [linkTopic, isSome_linkFold]; exact hti
      · rw [linkTopic, isSome_linkFold]; exact hri

theorem build_graph_adjacency (gs : List ChatGroup) :
    adjacencyInvariant (build_graph_from_data gs) := by
  intro g hg t ht nm hnm rid hres hne1 hne2
  have htmem : t ∈ allTopics gs := by
    rw [allTopics]
    exact List.mem_flatMap.mpr ⟨g, hg, ht⟩
  have hres' : dictGet? (buildNameToId (allTopics gs)) nm = some rid := hres
  obtain ⟨t', ht', hid⟩ := buildNameToId_values (allTopics gs) nm rid hres'
  have hti := buildGraphInit_isSome (allTopics gs) t htmem
  have hri : (dictGet? (buildGraphInit (allTopics gs)) rid).isSome = true := by
    rw [← hid]
    exact buildGraphInit_isSome (allTopics gs) t' ht'
  exact pass2_establish (buildNameToId (allTopics gs)) (allTopics gs) t nm rid
    hnm hres' hne1 hne2 (buildGraphInit (allTopics gs)) htmem hti hri

theorem add_topic_links_new (st : GraphState)
    (group_id topic_name priority description : String) (related : List String)
    (g : ChatGroup)
    (hfind : st.chat_groups.find? (fun h => h.group_id == group_id) = some g)
    (nm : String) (hnm : nm ∈ related) (rid : String)
    (hres : dictGet? (dictSet st.topic_name_to_id topic_name (addTid group_id g)) nm =
      some rid)
    (hne1 : rid ≠ "") (hne2 : rid ≠ addTid group_id g)
    (hpre : (dictGet? st.graph rid).isSome = true) :
    rid ∈ graphList
        (add_topic_simple st group_id topic_name priority description related)
        (addTid group_id g) ∧
      addTid group_id g ∈ graphList
        (add_topic_simple st group_id topic_name priority description related) rid := by
  have hti : (dictGet? (dictSet st.graph (addTid group_id g) [])
      (addTid group_id g)).isSome = true := by
    rw [dictGet?_dictSet_self]
    rfl
  have hri : (dictGet? (dictSet st.graph (addTid group_id g) []) rid).isSome = true :=
    isSome_dictGet?_dictSet _ _ _ _ hpre
  have h2 := linkFold_establish
    (dictSet st.topic_name_to_id topic_name (addTid group_id g))
    (addTid group_id g) related (dictSet st.graph (addTid group_id g) []) nm rid
    hnm hres hne1 hne2 hti hri
  unfold add_topic_simple
  rw [hfind]
  exact h2

/-- C6: after `_build_graph_from_data`, every related-topic name of every topic
that resolves through the name index to a truthy id different from the topic's
own id is linked in both directions; and `add_topic_simple`, on a known group,
links the NEW topic bidirectionally with every related name that resolves (in
the updated name index) to a truthy, non-self id already present in the graph
dict. -/
theorem graph_bidirectional_linking :
    (∀ gs : List ChatGroup, adjacencyInvariant (build_graph_from_data gs)) ∧
    (∀ (st : GraphState) (group_id topic_name priority description : String)
        (related : List String) (g : ChatGroup),
      st.chat_groups.find? (fun h => h.group_id == group_id) = some g →
      ∀ nm ∈ related, ∀ rid : String,
        dictGet? (dictSet st.topic_name_to_id topic_name (addTid group_id g)) nm =
          some rid →
        rid ≠ "" → rid ≠ addTid group_id g →
        (dictGet? st.graph rid).isSome = true →
        rid ∈ graphList
            (add_topic_simple st group_id topic_name priority description related)
            (addTid group_id g) ∧
          addTid group_id g ∈ graphList
            (add_topic_simple st group_id topic_name priority description related)
            rid) :=
  ⟨build_graph_adjacency,
   fun st gid tn pr de rel g hfind nm hnm rid hres h1 h2 h3 =>
     add_topic_links_new st gid tn pr de rel g hfind nm hnm rid hres h1 h2 h3⟩

/-- Concrete instance of C6: adding topic `A` with `related_topics = [B]` where
`B` pre-exists yields the edge in both directions. -/
theorem graph_bidirectional_linking_witness :
    adjacencyInvariant (build_graph_from_data gsPre) ∧
    ("tB" ∈ graphList
        (add_topic_simple (build_graph_from_data gsPre) "g1" "A" "高" "" ["B"])
        (addTid "g1" gPre) ∧
      addTid "g1" gPre ∈ graphList
        (add_topic_simple (build_graph_from_data gsPre) "g1" "A" "高" "" ["B"]) "tB") :=
  ⟨graph_bidirectional_linking.1 gsPre,
   graph_bidirectional_linking.2 (build_graph_from_data gsPre) "g1" "A" "高" "" ["B"]
     gPre (by decide) "B" (by decide) "tB" (by decide) (by decide) (by decide)
     (by decide)⟩

/-- C6 counterexample: `add_topic_simple` links only the new topic's related
names, so a pre-existing topic whose dangling related name is resolved by the
newly added topic stays unlinked, and the full adjacency invariant fails after
the addition. -/
theorem graph_add_missing_backlink :
    ¬ adjacencyInvariant
        (add_topic_simple (build_graph_from_data gsDangle) "g1" "B" "高" "" []) := by
  intro h
  exact absurd
    (h { group_id := "g1", group_name := "G", description := "",
         topics := [topicA1,
           { topic_id := "topic_g1_02", topic_name := "B", priority := "高",
             summaries := [], related_records := [], related_topics := [] }] }
       (by decide) topicA1 (by decide) "B" (by decide) "topic_g1_02" (by decide)
       (by decide) (by decide)).1
    (by decide)
